import Mathlib

/-!
Verification of the commit-range resolution core of `giff-version-differ`
(`src/lib/core.js`, plus the GraphQL-strategy variant in `src/unnamed/part_006`).

The JavaScript code is shallowly embedded: each exported function becomes a
Lean definition of the same name; the remote GitHub API is an explicit
environment record whose fields model the read-only provider operations
(`Except` models a rejected network call); JS option truthiness (where
`undefined`, `null` and `""` are all falsy) is modelled by `truthy` on
`Option String`.  String operations are implemented over the underlying
character list (`String.data`) so that every definition evaluates by kernel
reduction; this matches JS string semantics for the Basic-Multilingual-Plane
text the tool manipulates (JS `.length`/`.substring` count UTF-16 units,
the model counts characters).
-/

namespace GVD

/-- JS truthiness of an optional string option: `undefined`, `null` and the
empty string are falsy. -/
def truthy : Option String → Bool
  | none => false
  | some s => !s.isEmpty

/-- Characters matched by the JS regex class `\s` (ASCII part; the Unicode
space characters beyond these do not occur in the data the tool handles). -/
def jsIsSpace (c : Char) : Bool :=
  c = ' ' || c = '\t' || c = '\n' || c = '\r' || c = '\x0b' || c = '\x0c'

/-- JS `String.prototype.trim`: strip leading and trailing whitespace. -/
def jsTrim (s : String) : String :=
  String.mk (((s.data.dropWhile jsIsSpace).reverse.dropWhile jsIsSpace).reverse)

/-- JS `a.startsWith(b)`. -/
def jsStartsWith (s pre : String) : Bool :=
  pre.data.isPrefixOf s.data

/-- JS `a.endsWith(b)`. -/
def jsEndsWith (s suf : String) : Bool :=
  suf.data.isSuffixOf s.data

/-- JS `s.substring(n)` (drop the first `n` code units). -/
def jsDrop (s : String) (n : Nat) : String :=
  String.mk (s.data.drop n)

/-- JS `s.substring(0, n)` (the call sites use it to shorten a sha to 7). -/
def jsTake (s : String) (n : Nat) : String :=
  String.mk (s.data.take n)

/-- JS `s.length`. -/
def jsLength (s : String) : Nat :=
  s.data.length

/-- Substring search over character lists (helper for `jsContains`). -/
def containsChars (pat : List Char) : List Char → Bool
  | [] => pat.isEmpty
  | c :: rest => pat.isPrefixOf (c :: rest) || containsChars pat rest

/-- JS `a.includes(b)` (the only use is the `"../"` check). -/
def jsContains (s pat : String) : Bool :=
  containsChars pat.data s.data

/-- JS `s.split(",")`: the empty string yields one empty part, separators at
either end yield empty parts. -/
def splitCommaChars : List Char → List (List Char)
  | [] => [[]]
  | c :: rest =>
    if c = ',' then [] :: splitCommaChars rest
    else
      match splitCommaChars rest with
      | [] => [[c]]
      | g :: gs => (c :: g) :: gs

/-- JS `s.split(",")` producing strings. -/
def jsSplitComma (s : String) : List String :=
  (splitCommaChars s.data).map String.mk

/-- ASCII lower-casing, as applied by `toLowerCase()` to the classifier text
(the classifier vocabulary is plain ASCII). -/
def jsToLower (s : String) : String :=
  String.mk (s.data.map Char.toLower)

/-- JS `message.split("\n")[0]`. -/
def firstLine (s : String) : String :=
  String.mk (s.data.takeWhile (fun c => c ≠ '\n'))

/-! ## Directory filter: `shouldIncludeCommit` (src/lib/core.js lines 316-366) -/

/-- `excludeSubPaths.split(",").map(trim).filter(nonempty)` from
`shouldIncludeCommit`. -/
def splitPatterns (excludeSubPaths : String) : List String :=
  ((jsSplitComma excludeSubPaths).map jsTrim).filter (fun p => !p.isEmpty)

/-- The exclude patterns the filter would act on: none unless the option is
truthy (the source only splits a truthy `excludeSubPaths`). -/
def jsExcludePatterns (excludeSubPaths : Option String) : List String :=
  if truthy excludeSubPaths then splitPatterns (excludeSubPaths.getD "") else []

/-- The per-pattern test inside `shouldIncludeCommit`: a pattern with a
leading separator or a parent-directory segment is invalid and never
matches; otherwise the commit file's clean relative path must start with the
pattern. -/
def patternMatches (pattern cleanRelativePath : String) : Bool :=
  if jsStartsWith pattern "/" || jsContains pattern "../" then false
  else jsStartsWith cleanRelativePath pattern

/-- `relativePath.startsWith("/") ? relativePath.substring(1) : relativePath`. -/
def stripLeadingSlash (s : String) : String :=
  if jsStartsWith s "/" then jsDrop s 1 else s

/-- The clean relative path of a file under the (truthy) target directory,
as computed inside `shouldIncludeCommit`. -/
def cleanRelative (targetDir file : String) : String :=
  stripLeadingSlash (jsDrop file (jsLength targetDir))

/-- `shouldIncludeCommit(files, targetDir, excludeSubPaths)` from
src/lib/core.js: include every commit when no criterion is truthy; require a
file under `targetDir` when it is truthy; when `excludeSubPaths` is truthy
and yields patterns, exclude only if every in-scope file matches some
pattern. -/
def shouldIncludeCommit (files : List String) (targetDir excludeSubPaths : Option String) : Bool :=
  if !truthy targetDir && !truthy excludeSubPaths then true
  else
    let hasTargetChanges :=
      if truthy targetDir then files.any (fun f => jsStartsWith f (targetDir.getD "")) else true
    if !hasTargetChanges then false
    else if truthy excludeSubPaths then
      let excludePatterns := splitPatterns (excludeSubPaths.getD "")
      if excludePatterns.isEmpty then hasTargetChanges
      else
        let filesToCheck :=
          if truthy targetDir then files.filter (fun f => jsStartsWith f (targetDir.getD ""))
          else files
        if filesToCheck.isEmpty then false
        else
          let allExcluded := filesToCheck.all (fun file =>
            let cleanRelativePath :=
              if truthy targetDir then cleanRelative (targetDir.getD "") file
              else stripLeadingSlash file
            excludePatterns.any (fun pattern => patternMatches pattern cleanRelativePath))
          !allExcluded
    else hasTargetChanges

/-! ## Message parser: `parseCommitMessage` (src/lib/core.js lines 417-455) -/

/-- The release-classifier vocabulary of `parseCommitMessage`. -/
def semverTypes : List String :=
  ["major", "minor", "patch", "fix", "maint", "chore", "feat", "feature",
   "docs", "style", "refactor", "test", "build", "ci", "perf", "revert"]

/-- Result record of `parseCommitMessage`. -/
structure ParsedMessage where
  semverType : Option String
  jiraTicketId : Option String
  cleanMessage : String
deriving Repr, DecidableEq

/-- Match `\[([A-Za-z]+-\d+)\]` at the current position (the prefix regex
carries the `i` flag, so `[A-Z]+` matches both cases); returns the captured
ticket and the remaining characters. -/
def matchTicketAt (caseSensitive : Bool) (cs : List Char) : Option (String × List Char) :=
  match cs with
  | '[' :: rest =>
    let letters := rest.takeWhile (fun c => if caseSensitive then c.isUpper else c.isAlpha)
    if letters.isEmpty then none
    else
      match rest.drop letters.length with
      | '-' :: rest2 =>
        let digits := rest2.takeWhile Char.isDigit
        if digits.isEmpty then none
        else
          match rest2.drop digits.length with
          | ']' :: rest3 => some (String.mk (letters ++ '-' :: digits), rest3)
          | _ => none
      | _ => none
  | _ => none

/-- Leftmost search for `\[([A-Z]+-\d+)\]` anywhere in the message, used by
the fallback branch of `parseCommitMessage` (no `i` flag there). -/
def findTicketAnywhere : List Char → Option String
  | [] => none
  | c :: rest =>
    match matchTicketAt true (c :: rest) with
    | some (t, _) => some t
    | none => findTicketAnywhere rest

/-- Match `^(major|minor|...|revert):` case-insensitively: the first
vocabulary entry that, followed by a colon, prefixes the lower-cased message
(the rest of the regex is all-optional, so no cross-alternative backtracking
can occur). Returns the classifier and the characters after the colon. -/
def matchSemverPrefix (message : String) : Option (String × List Char) :=
  semverTypes.findSome? (fun t =>
    if jsStartsWith (jsToLower message) (t ++ ":") then
      some (t, message.data.drop (jsLength t + 1))
    else none)

/-- The `(.*)` capture: everything up to the next line terminator. -/
def restOfLine (cs : List Char) : List Char :=
  cs.takeWhile (fun c => c ≠ '\n' && c ≠ '\r' && c ≠ (Char.ofNat 0x2028) && c ≠ (Char.ofNat 0x2029))

/-- `parseCommitMessage(message)` from src/lib/core.js: match the classifier
prefix regex `^(types):\s*(?:\[([A-Z]+-\d+)\]\s*)?(.*)` (flag `i`); on
success return the lower-cased classifier, the optional ticket and the
trimmed remainder of the line; otherwise scan the whole message for an
upper-case bracketed ticket and return the message unchanged. -/
def parseCommitMessage (message : String) : ParsedMessage :=
  match matchSemverPrefix message with
  | some (t, afterColon) =>
    let afterSpaces := afterColon.dropWhile jsIsSpace
    match matchTicketAt false afterSpaces with
    | some (ticket, rest) =>
      { semverType := some t
        jiraTicketId := some ticket
        cleanMessage := jsTrim (String.mk (restOfLine (rest.dropWhile jsIsSpace))) }
    | none =>
      { semverType := some t
        jiraTicketId := none
        cleanMessage := jsTrim (String.mk (restOfLine afterSpaces)) }
  | none =>
    { semverType := none
      jiraTicketId := findTicketAnywhere message.data
      cleanMessage := message }

/-! ## Commit data model -/

/-- A commit as presented by the provider's history endpoints (sha, message
and author metadata). -/
structure RawCommit where
  sha : String
  message : String
  authorName : String
  authorDate : String
deriving Repr, DecidableEq

/-- The in-flight commit record built by the fetchers: provider metadata
plus the changed-file list, which starts empty (`files: []` in the source)
and is filled lazily. -/
structure Commit where
  sha : String
  message : String
  authorName : String
  authorDate : String
  files : List String
deriving Repr, DecidableEq

/-- The record `getCommitsBetweenREST` builds for each collected provider
commit (`files: [], changedFilesCount: 0`). -/
def toCommit (c : RawCommit) : Commit :=
  { sha := c.sha, message := c.message, authorName := c.authorName,
    authorDate := c.authorDate, files := [] }

/-! ## Linear-strategy path fetch (src/lib/core.js lines 106-254)

`listCommits(sha, path, per_page, page)` over a fixed path-scoped history
returns the slice `hist.drop((page-1)*per_page).take(per_page)`; the head
walk visits pages 1, 2, … in order, so after fetching a page the remaining
work is determined by the un-visited suffix of the history.  `headWalkPages`
mirrors the while-loop (page granularity, the three stop conditions);
`scanPage` is the per-page inner for-loop, and `headWalkPages_eq_scanPage`
below proves the paged walk equals one flat scan. -/

/-- The inner for-loop of the head walk: collect commits (in the
`files: []` shape) until `baseSha` is encountered; the flag reports whether
it was. -/
def scanPage (baseSha : String) : List RawCommit → List Commit × Bool
  | [] => ([], false)
  | c :: rest =>
    if c.sha = baseSha then ([], true)
    else
      let r := scanPage baseSha rest
      (toCommit c :: r.1, r.2)

/-- The paged head walk (`per_page = 100`): stop on an empty page (the
un-visited suffix is empty), on finding the base, or after a short page;
otherwise continue with the next page (the suffix after the first 100
entries). -/
def headWalkPages (baseSha : String) : List RawCommit → List Commit × Bool
  | [] => ([], false)
  | c :: cs =>
    let r := scanPage baseSha ((c :: cs).take 100)
    if r.2 then (r.1, true)
    else if ((c :: cs).take 100).length < 100 then (r.1, false)
    else
      let r2 := headWalkPages baseSha ((c :: cs).drop 100)
      (r.1 ++ r2.1, r2.2)
termination_by l => l.length
decreasing_by
  simp only [List.length_drop, List.length_cons]
  omega

/-- `listCommitShas`: every sha visited by the head walk, including the base
itself when it is encountered. -/
def visitedShas (baseSha : String) : List RawCommit → List String
  | [] => []
  | c :: rest =>
    if c.sha = baseSha then [c.sha] else c.sha :: visitedShas baseSha rest

/-- Result of the `targetDir` branch of `getCommitsBetweenREST`:
the collected commits, the `foundBase` flag, and how many pages were
requested from the base side by the intersection search. -/
structure PathFetchResult where
  commits : List Commit
  foundBase : Bool
  baseRequests : Nat
deriving Repr, DecidableEq

/-- The `targetDir` branch of `getCommitsBetweenREST` as a pure function of
the two path-scoped histories (from `headSha` and from `baseSha`).  The head
walk is the flat scan, which `headWalkPages_eq_scanPage` below proves equal
to the source's paged loop.  When the walk does not find the base and
collected at least one sha, the boundary-intersection search runs with
`per_page = 1` and `maxChecks = 1`: it fetches exactly one page holding the
first base-side commit, tests it against `listCommitShas`, and on success
truncates the collection strictly before the intersection point. -/
def restPathFetch (baseSha : String) (headHist baseHist : List RawCommit) : PathFetchResult :=
  let walk := scanPage baseSha headHist
  let listCommitShas := visitedShas baseSha headHist
  if walk.2 then ⟨walk.1, true, 0⟩
  else if listCommitShas.isEmpty then ⟨walk.1, false, 0⟩
  else
    match baseHist with
    | [] => ⟨walk.1, false, 1⟩
    | c :: _ =>
      if listCommitShas.contains c.sha then
        ⟨walk.1.takeWhile (fun k => k.sha ≠ c.sha), true, 1⟩
      else ⟨walk.1, false, 1⟩

/-! ## Repository URL parsing: `parseGitHubUrl` (src/lib/core.js lines 23-37)

The two source regexes are
`/github\.com\/([^\/]+)\/([^\/]+?)(?:\.git)?(?:\/.*)?$/` and
`/github\.com:([^\/]+)\/([^\/]+?)(?:\.git)?$/`, tried in order, each as an
unanchored search.  A match must start at an occurrence of the literal
`github.com/` (resp. `github.com:`); the owner is the following non-empty
run of non-separator characters, the repo is the next segment with one
trailing `.git` stripped when that leaves it non-empty, and for the first
pattern any remaining `/…` tail is allowed provided it contains no line
terminator (JS `.` does not match line terminators, so `(?:\/.*)?$` cannot
span one). -/

/-- A JS regex line terminator (`.` never matches these). -/
def lineTerm (c : Char) : Bool :=
  c = '\n' || c = '\r' || c = Char.ofNat 0x2028 || c = Char.ofNat 0x2029

/-- Strip one trailing `.git` from a repo segment when the remainder is
non-empty (`([^\/]+?)(?:\.git)?` with a non-empty lazy group). -/
def stripGitSuffix (seg : String) : String :=
  if jsEndsWith seg ".git" && 4 < jsLength seg then String.mk (seg.data.take (seg.data.length - 4))
  else seg

/-- Continuation of the https pattern after the literal `github.com/`:
non-empty owner, `/`, non-empty repo segment, then an optional
terminator-free `/…` tail. -/
def tryHttpsTail (cs : List Char) : Option (String × String) :=
  let ownerCs := cs.takeWhile (fun c => c ≠ '/')
  if ownerCs.isEmpty then none
  else
    match cs.drop ownerCs.length with
    | '/' :: rest2 =>
      let segCs := rest2.takeWhile (fun c => c ≠ '/')
      if segCs.isEmpty then none
      else
        let tail := rest2.drop segCs.length
        if tail.all (fun c => !lineTerm c) then
          some (String.mk ownerCs, stripGitSuffix (String.mk segCs))
        else none
    | _ => none

/-- Continuation of the ssh pattern after the literal `github.com:`:
non-empty owner, `/`, then a non-empty separator-free repo segment running
to the end of the string. -/
def trySshTail (cs : List Char) : Option (String × String) :=
  let ownerCs := cs.takeWhile (fun c => c ≠ '/')
  if ownerCs.isEmpty then none
  else
    match cs.drop ownerCs.length with
    | '/' :: rest2 =>
      if rest2.isEmpty then none
      else if rest2.any (fun c => c = '/') then none
      else some (String.mk ownerCs, stripGitSuffix (String.mk rest2))
    | _ => none

/-- Unanchored search: try the continuation after every occurrence of the
literal, left to right. -/
def scanLit (lit : List Char) (k : List Char → Option (String × String)) :
    List Char → Option (String × String)
  | [] => none
  | c :: rest =>
    if lit.isPrefixOf (c :: rest) then
      match k ((c :: rest).drop lit.length) with
      | some r => some r
      | none => scanLit lit k rest
    else scanLit lit k rest

/-- `parseGitHubUrl(url)`: `some (owner, repo)` when either pattern
matches, `none` where the source throws its invalid-URL error. -/
def parseGitHubUrl (url : String) : Option (String × String) :=
  match scanLit "github.com/".data tryHttpsTail url.data with
  | some r => some r
  | none => scanLit "github.com:".data trySshTail url.data

/-- The message of the error thrown by `parseGitHubUrl`. -/
def invalidUrlMessage : String :=
  "Invalid GitHub repository URL. Please provide a valid GitHub repository URL."

/-! ## Elapsed-time formatting: `formatElapsedTime` (src/lib/core.js 488-500)

The source divides a millisecond count by 1000 and renders two decimals
with `toFixed(2)`; the model computes the same two-decimal rendering with
exact arithmetic (rounding half up), abstracting the IEEE-754 artifacts of
`toFixed` on ties, which no claim depends on. -/

/-- Two-digit zero-padded fraction part. -/
def pad2 (n : Nat) : String :=
  if n < 10 then "0" ++ toString n else toString n

/-- `formatElapsedTime(milliseconds)`. -/
def formatElapsedTime (ms : Nat) : String :=
  if ms < 1000 then toString ms ++ "ms"
  else if ms < 60000 then
    let centi := (ms + 5) / 10
    toString (centi / 100) ++ "." ++ pad2 (centi % 100) ++ "s"
  else
    let minutes := ms / 60000
    let rcenti := (ms % 60000 + 5) / 10
    toString minutes ++ "m " ++ toString (rcenti / 100) ++ "." ++ pad2 (rcenti % 100) ++ "s"

/-! ## Provider environment

The abstract read-only GitHub API used by the core: reference resolution
lookups, the two-endpoint comparison, the path-scoped linear history, and
per-commit changed-file lookup.  `Except` models a rejected call carrying
the provider's error message; `pathHistory sha path` is the full
path-scoped linear history starting at `sha`, of which `listCommits` pages
are slices.  `elapsedMillis` stands in for the wall-clock difference the
source takes with `Date.now()`, and `nowIso` for the
`new Date().toISOString()` timestamp the streaming loop substitutes for a
missing commit date. -/
structure Env where
  resolveCommit : String → Except String String
  resolveTag : String → Except String String
  resolveBranch : String → Except String String
  compareCommits : String → String → Except String (List RawCommit)
  pathHistory : String → String → Except String (List RawCommit)
  commitFiles : String → Except String (List String)
  elapsedMillis : Nat
  nowIso : String

/-- `getCommitSha` (src/lib/core.js lines 47-83): try the label as a commit,
then as a tag, then as a branch; the nested catches collapse every failure
into one error naming the label. -/
def getCommitSha (env : Env) (tagOrCommit : String) : Except String String :=
  match env.resolveCommit tagOrCommit with
  | .ok sha => .ok sha
  | .error _ =>
    match env.resolveTag tagOrCommit with
    | .ok sha => .ok sha
    | .error _ =>
      match env.resolveBranch tagOrCommit with
      | .ok sha => .ok sha
      | .error _ => .error ("Could not find tag or commit: " ++ tagOrCommit)

/-- Whether the head walk result triggers the boundary-intersection search
(`!foundBase && listCommitShas.size > 0`). -/
def needsIntersection (baseSha : String) (headHist : List RawCommit) : Bool :=
  !(scanPage baseSha headHist).2 && !(visitedShas baseSha headHist).isEmpty

/-- `getCommitsBetweenREST` (src/lib/core.js lines 95-282): with a truthy
`targetDir`, walk the path-scoped history from `headSha`, run the
intersection search when needed (one further provider request from
`baseSha`); otherwise a single `compareCommits` call. -/
def getCommitsBetweenREST (env : Env) (baseSha headSha : String) (targetDir : Option String) :
    Except String (List Commit) :=
  if truthy targetDir then
    let td := targetDir.getD ""
    match env.pathHistory headSha td with
    | .error e => .error e
    | .ok headHist =>
      if needsIntersection baseSha headHist then
        match env.pathHistory baseSha td with
        | .error e => .error e
        | .ok baseHist => .ok (restPathFetch baseSha headHist baseHist).commits
      else .ok (scanPage baseSha headHist).1
  else
    match env.compareCommits baseSha headSha with
    | .error e => .error e
    | .ok cs => .ok (cs.map toCommit)

/-- `getFilesChangedInCommit` (src/lib/core.js lines 292-305): the catch
turns any provider failure into an empty file list, so this never throws. -/
def getFilesChangedInCommit (env : Env) (sha : String) : List String :=
  match env.commitFiles sha with
  | .ok fs => fs
  | .error _ => []

/-- `filterCommitsByDirectory` (src/lib/core.js lines 378-410): fetch files
lazily when absent (caching them on the record) and keep the commits passing
`shouldIncludeCommit`.  The skip-on-fetch-error branch of the source is
unreachable because `getFilesChangedInCommit` never throws. -/
def filterCommitsByDirectory (env : Env) (commits : List Commit)
    (targetDir excludeSubPaths : Option String) : List Commit :=
  if !truthy targetDir && !truthy excludeSubPaths then commits
  else
    commits.filterMap (fun c =>
      let files := if c.files.isEmpty then getFilesChangedInCommit env c.sha else c.files
      if shouldIncludeCommit files targetDir excludeSubPaths then
        some { c with files := files }
      else none)

/-- The record built per commit by `processCommits` (src/lib/core.js
lines 462-481). -/
structure ProcessedCommit where
  hash : String
  shortHash : String
  author : String
  date : String
  message : String
  cleanMessage : String
  semverType : Option String
  jiraTicketId : Option String
deriving Repr, DecidableEq

/-- One step of `processCommits`: an empty message falls back to
`Commit <shortHash>`, the reported message is the first line, and the
parser supplies the structured fields. -/
def processCommit (c : Commit) : ProcessedCommit :=
  let shortHash := jsTake c.sha 7
  let message := if c.message.isEmpty then "Commit " ++ shortHash else c.message
  let p := parseCommitMessage message
  { hash := c.sha, shortHash := shortHash, author := c.authorName, date := c.authorDate,
    message := firstLine message, cleanMessage := p.cleanMessage,
    semverType := p.semverType, jiraTicketId := p.jiraTicketId }

/-- `processCommits(commits)` (the trailing `.filter(Boolean)` never drops
an element because every mapped record is an object). -/
def processCommits (cs : List Commit) : List ProcessedCommit :=
  cs.map processCommit

/-! ## Non-streaming entry point: `getCommitsBetween` (src/lib/core.js 513-638) -/

/-- Caller options (`repoUrl, from, to, targetDir, excludeSubPaths`); the
token only configures transport authentication and plays no role in the
model.  `fromInput`/`toInput` stand for the JS `from`/`to` fields (`from` is
reserved in Lean). -/
structure Options where
  repoUrl : String
  fromInput : Option String
  toInput : Option String
  targetDir : Option String
  excludeSubPaths : Option String

/-- A commit entry of the non-streaming result object. -/
structure OutCommit where
  hash : String
  author : String
  date : String
  message : String
  semverType : Option String
  jiraTicketId : Option String
deriving Repr, DecidableEq

/-- The success shape of the non-streaming result. -/
structure SuccessResult where
  commits : List OutCommit
  totalCommits : Nat
  elapsedTime : String
  apiUsed : String
  repository : String × String
  fromRef : String
  toRef : String
  fromSha : String
  toSha : String
  warning : Option String
deriving Repr, DecidableEq

/-- The failure shape of the non-streaming result (`success: false`). -/
structure FailureResult where
  error : String
  elapsedTime : String
  repository : Option (String × String)
deriving Repr, DecidableEq

/-- The structured result that always crosses the public boundary. -/
inductive RunResult
  | ok : SuccessResult → RunResult
  | err : FailureResult → RunResult
deriving Repr, DecidableEq

/-- Warning attached when neither reference is supplied. -/
def warnNoVersion : String :=
  "⚠️ No version specified, returning only the latest commit"

/-- Warning attached when only the ending reference is supplied. -/
def warnNoStart : String :=
  "⚠️ No starting version specified, returning only the latest commit"

/-- Warning attached when only the starting reference is supplied. -/
def warnNoTarget : String :=
  "⚠️ No target version specified, including all commits from the starting version"

/-- Warning attached when both references resolve to the same commit. -/
def warnSameVersion : String :=
  "⚠️ Starting and ending versions are the same, no changes can be detected"

/-- The partial-input substitution (src/lib/core.js lines 522-542): missing
`from` (with or without `to`) defaults the range to `HEAD~1..HEAD`; missing
`to` alone defaults to `from..HEAD`; each substitution carries its warning. -/
def substituteRefs (fromInput toInput : Option String) : String × String × Option String :=
  if !truthy fromInput && !truthy toInput then ("HEAD~1", "HEAD", some warnNoVersion)
  else if !truthy fromInput && truthy toInput then ("HEAD~1", "HEAD", some warnNoStart)
  else if truthy fromInput && !truthy toInput then (fromInput.getD "", "HEAD", some warnNoTarget)
  else (fromInput.getD "", toInput.getD "", none)

/-- The commit entry mapping of the success result (`message` is the clean
message unless it is empty). -/
def outOfProcessed (p : ProcessedCommit) : OutCommit :=
  { hash := p.hash, author := p.author, date := p.date,
    message := if p.cleanMessage.isEmpty then p.message else p.cleanMessage,
    semverType := p.semverType, jiraTicketId := p.jiraTicketId }

/-- `getCommitsBetween(options)` (src/lib/core.js lines 513-638): parse the
URL, substitute partial references, resolve both endpoints, short-circuit
on identical shas, fetch, limit to one commit when `from` was missing,
filter, process; every thrown error is caught into a failure result that
re-parses the URL for the repository coordinate. -/
def getCommitsBetween (env : Env) (opts : Options) : RunResult :=
  let elapsed := formatElapsedTime env.elapsedMillis
  match parseGitHubUrl opts.repoUrl with
  | none => .err { error := invalidUrlMessage, elapsedTime := elapsed, repository := none }
  | some ownerRepo =>
    let (finalFrom, finalTo, warning) := substituteRefs opts.fromInput opts.toInput
    match getCommitSha env finalFrom with
    | .error e => .err { error := e, elapsedTime := elapsed, repository := some ownerRepo }
    | .ok fromSha =>
      match getCommitSha env finalTo with
      | .error e => .err { error := e, elapsedTime := elapsed, repository := some ownerRepo }
      | .ok toSha =>
        if fromSha = toSha then
          .ok { commits := [], totalCommits := 0, elapsedTime := elapsed, apiUsed := "rest",
                repository := ownerRepo, fromRef := finalFrom, toRef := finalTo,
                fromSha := jsTake fromSha 7, toSha := jsTake toSha 7,
                warning := some warnSameVersion }
        else
          match getCommitsBetweenREST env fromSha toSha opts.targetDir with
          | .error e => .err { error := e, elapsedTime := elapsed, repository := some ownerRepo }
          | .ok commits0 =>
            let commits1 := if !truthy opts.fromInput then commits0.take 1 else commits0
            let commits2 :=
              if truthy opts.targetDir || truthy opts.excludeSubPaths then
                filterCommitsByDirectory env commits1 opts.targetDir opts.excludeSubPaths
              else commits1
            let processed := processCommits commits2
            .ok { commits := processed.map outOfProcessed, totalCommits := processed.length,
                  elapsedTime := elapsed, apiUsed := "rest", repository := ownerRepo,
                  fromRef := finalFrom, toRef := finalTo,
                  fromSha := jsTake fromSha 7, toSha := jsTake toSha 7, warning := warning }

/-! ## Streaming entry point: `streamCommitsBetween` (src/lib/core.js 648-896) -/

/-- A file entry of a streamed commit record (`filename`, `status`; the
fetchers deliver plain path strings, mapped to status `modified`). -/
structure FileEntry where
  filename : String
  status : String
deriving Repr, DecidableEq

/-- The commit record pushed into a streamed batch. -/
structure StreamCommit where
  hash : String
  fullHash : String
  author : String
  date : String
  message : String
  cleanMessage : String
  semverType : Option String
  jiraTicketId : Option String
  filesChanged : Nat
  files : List FileEntry
deriving Repr, DecidableEq

/-- One `onCommitBatch` invocation: the batch payload and the
`{processed, total}` progress value passed with it. -/
structure BatchEvent where
  payload : List StreamCommit
  processed : Nat
  total : Nat
deriving Repr, DecidableEq

/-- Per-commit processing of the streaming batch loop (src/lib/core.js
lines 759-813): fetch files when absent, drop the commit when filter
criteria are active and reject it, otherwise build the streamed record.
The REST-shaped commit has no top-level `author`, so the source's falsy
fallback chains reduce to `commit.commit.author.name || "Unknown"` and
`commit.commit.author.date || new Date().toISOString()` (the clock read is
the environment's `nowIso`).  Nothing in the loop body can throw in the
model, so the per-commit catch is not represented. -/
def processStreamCommit (env : Env) (opts : Options) (c : Commit) : Option StreamCommit :=
  let files := if c.files.isEmpty then getFilesChangedInCommit env c.sha else c.files
  if (truthy opts.targetDir || truthy opts.excludeSubPaths)
      && !shouldIncludeCommit files opts.targetDir opts.excludeSubPaths then none
  else
    let p := parseCommitMessage c.message
    some { hash := jsTake c.sha 7, fullHash := c.sha,
           author := if c.authorName.isEmpty then "Unknown" else c.authorName,
           date := if c.authorDate.isEmpty then env.nowIso else c.authorDate,
           message := c.message, cleanMessage := p.cleanMessage,
           semverType := p.semverType, jiraTicketId := p.jiraTicketId,
           filesChanged := files.length,
           files := files.map (fun f => { filename := f, status := "modified" }) }

/-- Split a list into consecutive chunks of size `n + 1` (the shape of the
`i += size` slicing loops; a positive size is forced by the `n + 1`
argument). -/
def chunksOfSucc {α : Type} (n : Nat) : List α → List (List α)
  | [] => []
  | c :: cs => ((c :: cs).take (n + 1)) :: chunksOfSucc n ((c :: cs).drop (n + 1))
termination_by l => l.length
decreasing_by
  simp only [List.length_drop, List.length_cons]
  omega

/-- The batches of the streaming loop (`BATCH_SIZE = 10`). -/
def chunksOf10 (l : List Commit) : List (List Commit) :=
  chunksOfSucc 9 l

/-- The batch loop: process each batch, keep a running processed count, and
record an `onCommitBatch` call for every non-empty batch result.  Returns
the emitted events and the final processed count. -/
def emitBatches (env : Env) (opts : Options) (total : Nat) (count : Nat) :
    List (List Commit) → List BatchEvent × Nat
  | [] => ([], count)
  | batch :: rest =>
    let results := batch.filterMap (processStreamCommit env opts)
    let count2 := count + results.length
    let r := emitBatches env opts total count2 rest
    if results.isEmpty then r
    else ({ payload := results, processed := count2, total := total } :: r.1, r.2)

/-- The success shape of the streaming result.  The same-sha and
zero-commit early returns omit some fields of the full summary; those are
`Option`s here (`none` when the source object lacks the key).  The constant
`fetchStats` diagnostic block (`totalChecked: 0, requestCount: 0` and the
fetch-time string) is not represented. -/
structure StreamOk where
  totalCommits : Nat
  summaryTotal : Nat
  summaryProcessed : Nat
  summarySkipped : Option Nat
  elapsedTime : Option String
  apiUsed : Option String
  repository : Option (String × String)
  fromRef : Option String
  toRef : Option String
  fromSha : Option String
  toSha : Option String
  warning : Option String
deriving Repr, DecidableEq

/-- The structured result of the streaming entry point. -/
inductive StreamResult
  | ok : StreamOk → StreamResult
  | err : FailureResult → StreamResult
deriving Repr, DecidableEq

/-- The data flow of `streamCommitsBetween(options, onCommitBatch,
onProgress)` (src/lib/core.js lines 648-896): the structured result and the
trace of `onCommitBatch` invocations.  Every callback call site in the
source is wrapped in a catch that only logs, so neither the result nor the
trace can depend on what the callbacks do; `streamCommitsBetween` below
re-attaches the callbacks. -/
def streamCore (env : Env) (opts : Options) : StreamResult × List BatchEvent :=
  let elapsed := formatElapsedTime env.elapsedMillis
  match parseGitHubUrl opts.repoUrl with
  | none =>
    (.err { error := invalidUrlMessage, elapsedTime := elapsed, repository := none }, [])
  | some ownerRepo =>
    let (finalFrom, finalTo, warning) := substituteRefs opts.fromInput opts.toInput
    match getCommitSha env finalFrom with
    | .error e =>
      (.err { error := e, elapsedTime := elapsed, repository := some ownerRepo }, [])
    | .ok fromSha =>
      match getCommitSha env finalTo with
      | .error e =>
        (.err { error := e, elapsedTime := elapsed, repository := some ownerRepo }, [])
      | .ok toSha =>
        if fromSha = toSha then
          (.ok { totalCommits := 0, summaryTotal := 0, summaryProcessed := 0,
                 summarySkipped := none, elapsedTime := some elapsed, apiUsed := none,
                 repository := some ownerRepo, fromRef := some finalFrom,
                 toRef := some finalTo, fromSha := some (jsTake fromSha 7),
                 toSha := some (jsTake toSha 7), warning := some warnSameVersion }, [])
        else
          match getCommitsBetweenREST env fromSha toSha opts.targetDir with
          | .error e =>
            (.err { error := e, elapsedTime := elapsed, repository := some ownerRepo }, [])
          | .ok commits0 =>
            let commits := if !truthy opts.fromInput then commits0.take 1 else commits0
            if commits.isEmpty then
              (.ok { totalCommits := 0, summaryTotal := 0, summaryProcessed := 0,
                     summarySkipped := none, elapsedTime := none, apiUsed := none,
                     repository := none, fromRef := none, toRef := none, fromSha := none,
                     toSha := none, warning := warning }, [])
            else
              let r := emitBatches env opts commits.length 0 (chunksOf10 commits)
              (.ok { totalCommits := r.2, summaryTotal := commits.length,
                     summaryProcessed := r.2, summarySkipped := some (commits.length - r.2),
                     elapsedTime := some elapsed, apiUsed := some "REST",
                     repository := some ownerRepo, fromRef := some finalFrom,
                     toRef := some finalTo, fromSha := some (jsTake fromSha 7),
                     toSha := some (jsTake toSha 7), warning := warning },
               r.1)

/-- `streamCommitsBetween(options, onCommitBatch, onProgress)`: the result,
the trace of `onCommitBatch` invocations, and what each invocation returned
(the source catches and discards these outcomes, so they influence
nothing). -/
def streamCommitsBetween (env : Env) (opts : Options)
    (onCommitBatch : List StreamCommit → Nat → Nat → Except String Unit)
    (onProgress : String → Except String Unit) :
    StreamResult × List BatchEvent × List (Except String Unit) :=
  let core := streamCore env opts
  let _progressOutcome := onProgress "Initializing GitHub clients..."
  (core.1, core.2, core.2.map (fun e => onCommitBatch e.payload e.processed e.total))

namespace Graph

/-! ## The GraphQL-strategy variant (src/unnamed/part_006)

This earlier copy of the core shares `parseGitHubUrl`, `processCommits` and
`formatElapsedTime` verbatim, but: the primary fetch strategy is a GraphQL
history walk with an automatic REST fallback (`options.restOnly` forces
REST); its REST fetch is the plain two-endpoint comparison; its directory
filter applies exclusion patterns only when `targetDir` is truthy; it has
no partial-input substitution and no same-sha short-circuit; and its
failure result carries no repository coordinate. -/

/-- A commit node of the GraphQL history: metadata plus the file paths of
the first associated pull request, when one exists with files (`prFiles` is
empty otherwise, matching the `files = []` default). -/
structure GraphCommit where
  sha : String
  message : String
  authorName : String
  authorDate : String
  prFiles : List String
deriving Repr, DecidableEq

/-- Provider environment of part_006: the REST lookups plus the GraphQL
history keyed by the head sha (`Except` models a failed query). -/
structure Env6 where
  resolveCommit : String → Except String String
  resolveTag : String → Except String String
  resolveBranch : String → Except String String
  compareCommits : String → String → Except String (List RawCommit)
  graphHistory : String → Except String (List GraphCommit)
  commitFiles : String → Except String (List String)
  elapsedMillis : Nat

/-- `getCommitSha` of part_006 (identical to the core.js version). -/
def getCommitSha (env : Env6) (tagOrCommit : String) : Except String String :=
  match env.resolveCommit tagOrCommit with
  | .ok sha => .ok sha
  | .error _ =>
    match env.resolveTag tagOrCommit with
    | .ok sha => .ok sha
    | .error _ =>
      match env.resolveBranch tagOrCommit with
      | .ok sha => .ok sha
      | .error _ => .error ("Could not find tag or commit: " ++ tagOrCommit)

/-- The per-page inner loop of `getCommitsBetweenGraphQL`: collect commits
(harvesting the pull-request file hints) until the base is encountered. -/
def graphScanPage (baseSha : String) : List GraphCommit → List Commit × Bool
  | [] => ([], false)
  | c :: rest =>
    if c.sha = baseSha then ([], true)
    else
      let r := graphScanPage baseSha rest
      ({ sha := c.sha, message := c.message, authorName := c.authorName,
         authorDate := c.authorDate, files := c.prFiles } :: r.1, r.2)

/-- The page loop of `getCommitsBetweenGraphQL`
(`while (hasNextPage && !foundBase && allCommits.length < 1000)`): the cap
is tested against the accumulated collection before each page fetch. -/
def graphCollect (baseSha : String) (acc : List Commit) :
    List (List GraphCommit) → List Commit
  | [] => acc
  | page :: rest =>
    if 1000 ≤ acc.length then acc
    else
      let r := graphScanPage baseSha page
      if r.2 then acc ++ r.1
      else graphCollect baseSha (acc ++ r.1) rest

/-- `getCommitsBetweenGraphQL` (part_006 lines 166-285): walk the history
from `headSha` in pages of `REQUEST_SIZE = 20`; any query failure is
re-thrown with the `GraphQL query failed:` prefix. -/
def getCommitsBetweenGraphQL (env : Env6) (baseSha headSha : String) :
    Except String (List Commit) :=
  match env.graphHistory headSha with
  | .error e => .error ("GraphQL query failed: " ++ e)
  | .ok hist => .ok (graphCollect baseSha [] (chunksOfSucc 19 hist))

/-- `getCommitsBetweenREST` of part_006 (lines 296-316): the plain
two-endpoint comparison, no path filtering. -/
def getCommitsBetweenREST (env : Env6) (baseSha headSha : String) :
    Except String (List Commit) :=
  match env.compareCommits baseSha headSha with
  | .error e => .error e
  | .ok cs => .ok (cs.map toCommit)

/-- `getFilesChangedInCommit` of part_006 (identical to core.js: the catch
yields an empty list). -/
def getFilesChangedInCommit (env : Env6) (sha : String) : List String :=
  match env.commitFiles sha with
  | .ok fs => fs
  | .error _ => []

/-- `shouldIncludeCommit` of part_006 (lines 348-384): unlike core.js, the
exclusion check runs only when `targetDir` is also truthy, and there is no
empty-pattern or empty-file-set early return. -/
def shouldIncludeCommit (files : List String) (targetDir excludeSubPaths : Option String) : Bool :=
  if !truthy targetDir && !truthy excludeSubPaths then true
  else
    let hasTargetChanges :=
      if truthy targetDir then files.any (fun f => jsStartsWith f (targetDir.getD "")) else true
    if !hasTargetChanges then false
    else if truthy excludeSubPaths && truthy targetDir then
      let excludePatterns := splitPatterns (excludeSubPaths.getD "")
      let targetFiles := files.filter (fun f => jsStartsWith f (targetDir.getD ""))
      let allExcluded := targetFiles.all (fun file =>
        excludePatterns.any (fun pattern =>
          patternMatches pattern (cleanRelative (targetDir.getD "") file)))
      !allExcluded
    else hasTargetChanges

/-- `filterCommitsByDirectory` of part_006 (lines 396-424). -/
def filterCommitsByDirectory (env : Env6) (commits : List Commit)
    (targetDir excludeSubPaths : Option String) : List Commit :=
  if !truthy targetDir && !truthy excludeSubPaths then commits
  else
    commits.filterMap (fun c =>
      let files := if c.files.isEmpty then getFilesChangedInCommit env c.sha else c.files
      if shouldIncludeCommit files targetDir excludeSubPaths then
        some { c with files := files }
      else none)

/-- Caller options of part_006 (`from`/`to` are used as given; `restOnly`
forces the linear strategy). -/
structure Options6 where
  repoUrl : String
  fromInput : String
  toInput : String
  targetDir : Option String
  excludeSubPaths : Option String
  restOnly : Bool

/-- The failure result of part_006 (`success: false`), which carries no
repository coordinate. -/
structure Failure6 where
  error : String
  elapsedTime : String
deriving Repr, DecidableEq

/-- The structured result of part_006's `getCommitsBetween` (the success
shape matches core.js minus the warning key, modelled as `none`). -/
inductive Result6
  | ok : SuccessResult → Result6
  | err : Failure6 → Result6
deriving Repr, DecidableEq

/-- `getCommitsBetween` of part_006 (lines 528-598): resolve both
references, fetch via GraphQL unless `restOnly`, fall back to REST when the
GraphQL strategy fails (reporting `rest-fallback`), then filter and
process. -/
def getCommitsBetween (env : Env6) (opts : Options6) : Result6 :=
  let elapsed := formatElapsedTime env.elapsedMillis
  match parseGitHubUrl opts.repoUrl with
  | none => .err { error := invalidUrlMessage, elapsedTime := elapsed }
  | some ownerRepo =>
    match getCommitSha env opts.fromInput with
    | .error e => .err { error := e, elapsedTime := elapsed }
    | .ok fromSha =>
      match getCommitSha env opts.toInput with
      | .error e => .err { error := e, elapsedTime := elapsed }
      | .ok toSha =>
        let fetched : Except String (List Commit) × String :=
          if opts.restOnly then (getCommitsBetweenREST env fromSha toSha, "rest")
          else
            match getCommitsBetweenGraphQL env fromSha toSha with
            | .ok cs => (.ok cs, "graphql")
            | .error _ => (getCommitsBetweenREST env fromSha toSha, "rest-fallback")
        match fetched.1 with
        | .error e => .err { error := e, elapsedTime := elapsed }
        | .ok commits0 =>
          let commits :=
            if truthy opts.targetDir || truthy opts.excludeSubPaths then
              filterCommitsByDirectory env commits0 opts.targetDir opts.excludeSubPaths
            else commits0
          let processed := processCommits commits
          .ok { commits := processed.map outOfProcessed, totalCommits := processed.length,
                elapsedTime := elapsed, apiUsed := fetched.2, repository := ownerRepo,
                fromRef := opts.fromInput, toRef := opts.toInput,
                fromSha := jsTake fromSha 7, toSha := jsTake toSha 7, warning := none }

/-- Replace the reported strategy of a part_006 result (identity on
failures). -/
def withApiUsed (r : Result6) (api : String) : Result6 :=
  match r with
  | .ok s => .ok { s with apiUsed := api }
  | .err e => .err e

end Graph

/-! ## Projections used by the claims -/

/-- Whether a non-streaming run ended in the failure shape. -/
def RunResult.isFailure : RunResult → Bool
  | .ok _ => false
  | .err _ => true

/-- The commit list of a non-streaming result (empty on failure, which has
no commits key). -/
def RunResult.commitsOrNil : RunResult → List OutCommit
  | .ok s => s.commits
  | .err _ => []

/-- The commit-identity projection of a streamed record: full hash, author,
date, and the parsed classifier and ticket. -/
def streamKey (s : StreamCommit) : String × String × String × Option String × Option String :=
  (s.fullHash, s.author, s.date, s.semverType, s.jiraTicketId)

/-- The commit-identity projection of a non-streaming commit entry. -/
def outKey (o : OutCommit) : String × String × String × Option String × Option String :=
  (o.hash, o.author, o.date, o.semverType, o.jiraTicketId)

/-- A sha contains no opening bracket (true of every real Git object hash,
which is hexadecimal); rules out a bracketed ticket pattern appearing inside
a generated `Commit <shortHash>` fallback message. -/
def bracketFree (s : String) : Bool :=
  s.data.all (fun c => c ≠ '[')

/-- Well-formed provider commit metadata: a bracket-free sha (real hashes
are hexadecimal) and non-empty author name and date (always supplied by the
provider for real commits).  An empty name or date would trip the streaming
loop's falsy fallbacks to `Unknown` / the current timestamp, which the
non-streaming path does not apply. -/
def rawMetaOk (rc : RawCommit) : Bool :=
  bracketFree rc.sha && !rc.authorName.isEmpty && !rc.authorDate.isEmpty

/-- `rawMetaOk` carried over to an in-flight commit record. -/
def commitMetaOk (c : Commit) : Bool :=
  bracketFree c.sha && !c.authorName.isEmpty && !c.authorDate.isEmpty

/-! ## Concrete environments for the claim witnesses -/

/-- A benign batch callback. -/
def cbOk : List StreamCommit → Nat → Nat → Except String Unit :=
  fun _ _ _ => .ok ()

/-- A benign progress callback. -/
def pgOk : String → Except String Unit :=
  fun _ => .ok ()

/-- A batch callback that always throws. -/
def cbThrow : List StreamCommit → Nat → Nat → Except String Unit :=
  fun _ _ _ => .error "consumer gone"

/-- A progress callback that always throws. -/
def pgThrow : String → Except String Unit :=
  fun _ => .error "consumer gone"

/-- Environment where every reference resolves to the same commit. -/
def envSame : Env :=
  { resolveCommit := fun _ => .ok "abc1234def"
    resolveTag := fun _ => .error "no tag"
    resolveBranch := fun _ => .error "no branch"
    compareCommits := fun _ _ => .error "unused"
    pathHistory := fun _ _ => .error "unused"
    commitFiles := fun _ => .error "unused"
    elapsedMillis := 5
    nowIso := "2024-03-01T00:00:00.000Z" }

/-- Two sample provider commits. -/
def rawC1 : RawCommit :=
  { sha := "a1a1a1a1a1", message := "feat: [ABC-123] add x", authorName := "ada",
    authorDate := "2024-01-02" }

/-- Second sample provider commit. -/
def rawC2 : RawCommit :=
  { sha := "b2b2b2b2b2", message := "fix: tweak", authorName := "lin",
    authorDate := "2024-01-01" }

/-- Environment with two distinct resolvable references and a two-commit
comparison range. -/
def envTwo : Env :=
  { resolveCommit := fun r => if r = "v1" then .ok "aaaa111" else
      if r = "v2" then .ok "bbbb222" else
      if r = "HEAD" then .ok "bbbb222" else
      if r = "HEAD~1" then .ok "aaaa111" else .error "unknown ref"
    resolveTag := fun _ => .error "no tag"
    resolveBranch := fun _ => .error "no branch"
    compareCommits := fun _ _ => .ok [rawC1, rawC2]
    pathHistory := fun _ _ => .error "unused"
    commitFiles := fun _ => .ok ["src/a.txt"]
    elapsedMillis := 5
    nowIso := "2024-03-01T00:00:00.000Z" }

/-- Environment whose range fetch always fails. -/
def envFetchFail : Env :=
  { resolveCommit := fun r => if r = "v1" then .ok "aaaa111" else
      if r = "v2" then .ok "bbbb222" else .error "unknown ref"
    resolveTag := fun _ => .error "no tag"
    resolveBranch := fun _ => .error "no branch"
    compareCommits := fun _ _ => .error "boom"
    pathHistory := fun _ _ => .error "boom"
    commitFiles := fun _ => .error "boom"
    elapsedMillis := 5
    nowIso := "2024-03-01T00:00:00.000Z" }

/-- Options naming two distinct references, no filtering. -/
def optsTwo : Options :=
  { repoUrl := "https://github.com/octo/demo", fromInput := some "v1", toInput := some "v2",
    targetDir := none, excludeSubPaths := none }

/-- Options naming the same reference twice. -/
def optsSame : Options :=
  { repoUrl := "https://github.com/octo/demo", fromInput := some "v1", toInput := some "v1",
    targetDir := none, excludeSubPaths := none }

/-- Options with no references supplied. -/
def optsNoRefs : Options :=
  { repoUrl := "https://github.com/octo/demo", fromInput := none, toInput := none,
    targetDir := none, excludeSubPaths := none }

/-- Options with only the starting reference supplied. -/
def optsFromOnly : Options :=
  { repoUrl := "https://github.com/octo/demo", fromInput := some "v1", toInput := none,
    targetDir := none, excludeSubPaths := none }

/-- A sample GraphQL history commit. -/
def graphC1 : Graph.GraphCommit :=
  { sha := "cccc333", message := "chore: bump", authorName := "kim",
    authorDate := "2024-02-01", prFiles := [] }

/-- part_006 environment whose GraphQL strategy always fails. -/
def envGraphDown : Graph.Env6 :=
  { resolveCommit := fun r => if r = "v1" then .ok "aaaa111" else
      if r = "v2" then .ok "bbbb222" else .error "unknown ref"
    resolveTag := fun _ => .error "no tag"
    resolveBranch := fun _ => .error "no branch"
    compareCommits := fun _ _ => .ok [rawC1, rawC2]
    graphHistory := fun _ => .error "network down"
    commitFiles := fun _ => .ok ["src/a.txt"]
    elapsedMillis := 5 }

/-- part_006 options with the graph strategy allowed. -/
def optsGraph : Graph.Options6 :=
  { repoUrl := "https://github.com/octo/demo", fromInput := "v1", toInput := "v2",
    targetDir := none, excludeSubPaths := none, restOnly := false }

/-! ### Fidelity of the flattened walk -/

/-- Scanning a concatenation: the scan of the first part decides whether the
second part is reached. -/
theorem scanPage_append (b : String) (xs ys : List RawCommit) :
    scanPage b (xs ++ ys) =
      if (scanPage b xs).2 then scanPage b xs
      else ((scanPage b xs).1 ++ (scanPage b ys).1, (scanPage b ys).2) := by
  induction xs with
  | nil => simp [scanPage]
  | cons c rest ih =>
    by_cases hc : c.sha = b
    · simp [scanPage, hc]
    · simp only [List.cons_append, scanPage, hc, if_false, List.append_eq]
      rw [ih]
      by_cases h2 : (scanPage b rest).2 <;> simp [h2]

/-- The paged head walk computes the same collection and flag as a single
flat scan of the history. -/
theorem headWalkPages_eq_scanPage (b : String) (l : List RawCommit) :
    headWalkPages b l = scanPage b l := by
  match l with
  | [] => simp [headWalkPages, scanPage]
  | c :: cs =>
    rw [headWalkPages]
    have hsplit : scanPage b (c :: cs) =
        if (scanPage b ((c :: cs).take 100)).2 then scanPage b ((c :: cs).take 100)
        else ((scanPage b ((c :: cs).take 100)).1 ++ (scanPage b ((c :: cs).drop 100)).1,
              (scanPage b ((c :: cs).drop 100)).2) := by
      conv_lhs => rw [← List.take_append_drop 100 (c :: cs)]
      exact scanPage_append b _ _
    by_cases h2 : (scanPage b ((c :: cs).take 100)).2
    · rw [hsplit, if_pos h2]
      simp only [h2, if_true]
      rw [← h2]
    · by_cases h3 : ((c :: cs).take 100).length < 100
      · have hdrop : (c :: cs).drop 100 = [] := by
          have hle : (c :: cs).length ≤ 100 := by
            rw [List.length_take] at h3
            omega
          exact List.drop_eq_nil_of_le hle
        rw [hsplit, if_neg h2, hdrop]
        simp only [h2, Bool.false_eq_true, if_false, h3, if_true]
        simp [scanPage]
      · have ih := headWalkPages_eq_scanPage b ((c :: cs).drop 100)
        simp only [List.drop_succ_cons] at ih
        rw [hsplit, if_neg h2]
        simp only [h2, Bool.false_eq_true, if_false, h3]
        simp [ih]
termination_by l.length
decreasing_by
  simp only [List.length_drop, List.length_cons]
  omega

/-- When the base is not found, the flat scan collects the whole history. -/
theorem scanPage_not_found (b : String) (l : List RawCommit)
    (h : (scanPage b l).2 = false) : (scanPage b l).1 = l.map toCommit := by
  induction l with
  | nil => simp [scanPage]
  | cons c rest ih =>
    by_cases hc : c.sha = b
    · simp [scanPage, hc] at h
    · simp only [scanPage, hc, if_false] at h ⊢
      simp [ih h]

/-- When the base is not found, the visited shas are exactly the shas of the
collected commits. -/
theorem visitedShas_not_found (b : String) (l : List RawCommit)
    (h : (scanPage b l).2 = false) :
    visitedShas b l = (scanPage b l).1.map Commit.sha := by
  induction l with
  | nil => simp [scanPage, visitedShas]
  | cons c rest ih =>
    by_cases hc : c.sha = b
    · simp [scanPage, hc] at h
    · simp only [scanPage, visitedShas, hc, if_false] at h ⊢
      simp [toCommit, ih h]

/-! ## Claim C3: message-parser examples -/

/-- C3 (counterexample): the classifier regex requires a colon after the
classifier keyword, so `fix no ticket here` does not parse to classifier
`fix` with clean message `no ticket here` as the claim states; the parser
falls through to the no-classifier branch. -/
theorem claim_C3_counterexample :
    parseCommitMessage "fix no ticket here" ≠
      { semverType := some "fix", jiraTicketId := none, cleanMessage := "no ticket here" } := by
  decide

/-- C3 (amended): `feat: [ABC-123] add x` parses to classifier `feat`,
ticket `ABC-123`, clean message `add x`; `random message` parses to no
classifier, no ticket, clean message unchanged; and `fix no ticket here`
(no colon after `fix`) also parses to no classifier, no ticket, with the
message unchanged. -/
theorem claim_C3_parser_examples :
    parseCommitMessage "feat: [ABC-123] add x" =
      { semverType := some "feat", jiraTicketId := some "ABC-123", cleanMessage := "add x" } ∧
    parseCommitMessage "random message" =
      { semverType := none, jiraTicketId := none, cleanMessage := "random message" } ∧
    parseCommitMessage "fix no ticket here" =
      { semverType := none, jiraTicketId := none, cleanMessage := "fix no ticket here" } :=
  ⟨by decide, by decide, by decide⟩

/-! ## Claim C10: the directory filter on a commit with no changed files -/

/-- C10: a commit whose changed-file list is empty is retained exactly when
the target directory is unset (falsy) and the exclude option contributes no
non-empty pattern; any active criterion — a truthy target directory, or at
least one non-empty exclude pattern — rejects it. -/
theorem claim_C10_empty_files (td e : Option String) :
    shouldIncludeCommit [] td e = true ↔
      (truthy td = false ∧ jsExcludePatterns e = []) := by
  by_cases htd : truthy td
  · have hfalse : shouldIncludeCommit [] td e = false := by
      simp [shouldIncludeCommit, htd]
    simp [hfalse, htd]
  · by_cases he : truthy e
    · by_cases hp : (splitPatterns (e.getD "")).isEmpty
      · have htrue : shouldIncludeCommit [] td e = true := by
          simp [shouldIncludeCommit, htd, he, hp]
        simp [htrue, htd, jsExcludePatterns, he, List.isEmpty_iff.mp hp]
      · have hfalse : shouldIncludeCommit [] td e = false := by
          simp [shouldIncludeCommit, htd, he, hp]
        have hnonnil : jsExcludePatterns e ≠ [] := by
          simp [jsExcludePatterns, he]
          exact fun hh => hp (by simp [hh])
        simp [hfalse, hnonnil]
    · have htrue : shouldIncludeCommit [] td e = true := by
        simp [shouldIncludeCommit, htd, he]
      simp [htrue, htd, jsExcludePatterns, he]

/-! ## Claim C9: callback failures never abort the streaming pipeline -/

/-- C9: the streaming pipeline's result and its trace of emitted batches
are identical for any two choices of batch/progress callbacks — in
particular a callback that throws changes nothing: every remaining commit
is still processed and the same summary is returned, because each call
site catches the callback outcome and discards it (the third component
records those discarded outcomes). -/
theorem claim_C9_callback_immunity (env : Env) (opts : Options)
    (cb cb2 : List StreamCommit → Nat → Nat → Except String Unit)
    (pg pg2 : String → Except String Unit) :
    (streamCommitsBetween env opts cb pg).1 = (streamCommitsBetween env opts cb2 pg2).1 ∧
    (streamCommitsBetween env opts cb pg).2.1 = (streamCommitsBetween env opts cb2 pg2).2.1 ∧
    (streamCommitsBetween env opts cb pg).2.2 =
      (streamCommitsBetween env opts cb pg).2.1.map
        (fun ev => cb ev.payload ev.processed ev.total) :=
  ⟨rfl, rfl, rfl⟩

/-! ## Claim C4: identical endpoints short-circuit to a zero-commit success -/

/-- C4: when both references resolve to the same commit identifier, the
non-streaming and streaming entry points both return a success with zero
commits and the same-version warning — never a failure — and no range
fetch is attempted: the result is fully determined without consulting the
fetch operations (the theorem holds for every environment, including ones
whose fetch calls fail, and the streaming run emits no batches). -/
theorem claim_C4_same_sha (env : Env) (opts : Options)
    (ownerRepo : String × String) (sha finalFrom finalTo : String) (w : Option String)
    (hurl : parseGitHubUrl opts.repoUrl = some ownerRepo)
    (hsub : substituteRefs opts.fromInput opts.toInput = (finalFrom, finalTo, w))
    (hfrom : getCommitSha env finalFrom = .ok sha)
    (hto : getCommitSha env finalTo = .ok sha) :
    getCommitsBetween env opts = .ok
      { commits := [], totalCommits := 0,
        elapsedTime := formatElapsedTime env.elapsedMillis, apiUsed := "rest",
        repository := ownerRepo, fromRef := finalFrom, toRef := finalTo,
        fromSha := jsTake sha 7, toSha := jsTake sha 7,
        warning := some warnSameVersion } ∧
    ∀ (cb : List StreamCommit → Nat → Nat → Except String Unit)
      (pg : String → Except String Unit),
      streamCommitsBetween env opts cb pg = (.ok
        { totalCommits := 0, summaryTotal := 0, summaryProcessed := 0,
          summarySkipped := none,
          elapsedTime := some (formatElapsedTime env.elapsedMillis), apiUsed := none,
          repository := some ownerRepo, fromRef := some finalFrom, toRef := some finalTo,
          fromSha := some (jsTake sha 7), toSha := some (jsTake sha 7),
          warning := some warnSameVersion }, [], []) := by
  constructor
  · simp [getCommitsBetween, hurl, hsub, hfrom, hto]
  · intro cb pg
    simp [streamCommitsBetween, streamCore, hurl, hsub, hfrom, hto]

/-- C4 witness: a concrete environment where `v1` and `v1` both resolve to
the same sha; both entry points return the zero-commit success with the
warning. -/
theorem claim_C4_witness :
    getCommitsBetween envSame optsSame = .ok
      { commits := [], totalCommits := 0, elapsedTime := "5ms", apiUsed := "rest",
        repository := ("octo", "demo"), fromRef := "v1", toRef := "v1",
        fromSha := "abc1234", toSha := "abc1234",
        warning := some warnSameVersion } ∧
    streamCommitsBetween envSame optsSame cbOk pgOk = (.ok
      { totalCommits := 0, summaryTotal := 0, summaryProcessed := 0,
        summarySkipped := none, elapsedTime := some "5ms", apiUsed := none,
        repository := some ("octo", "demo"), fromRef := some "v1", toRef := some "v1",
        fromSha := some "abc1234", toSha := some "abc1234",
        warning := some warnSameVersion }, [], []) := by
  have h := claim_C4_same_sha envSame optsSame ("octo", "demo") "abc1234def" "v1" "v1" none
    (by decide) (by decide) rfl rfl
  exact ⟨h.1, h.2 cbOk pgOk⟩

/-! ## Claim C1: the boundary-intersection search of the linear strategy -/

/-- C1 (amended): when the base identifier is not encountered while walking
the path-scoped history from the head, and that walk collected at least one
commit, the boundary-intersection search issues exactly one page request
starting from the base identifier (its budget is `per_page = 1`,
`maxChecks = 1`); the collected set is the full head-side history; if the
first base-side commit is a member of the collected set, the returned
commits are exactly the head-side collection up to but excluding that
intersection point and the base counts as found; otherwise the full
head-side collection is returned with the boundary unconfirmed. -/
theorem claim_C1_intersection (baseSha : String) (headHist baseHist : List RawCommit)
    (hnf : (scanPage baseSha headHist).2 = false)
    (hne : headHist ≠ []) :
    (restPathFetch baseSha headHist baseHist).baseRequests = 1 ∧
    (scanPage baseSha headHist).1 = headHist.map toCommit ∧
    (baseHist = [] →
      (restPathFetch baseSha headHist baseHist).commits = (scanPage baseSha headHist).1 ∧
      (restPathFetch baseSha headHist baseHist).foundBase = false) ∧
    (∀ c rest, baseHist = c :: rest →
      (((scanPage baseSha headHist).1.map Commit.sha).contains c.sha = true →
        (restPathFetch baseSha headHist baseHist).commits =
          (scanPage baseSha headHist).1.takeWhile (fun k => k.sha ≠ c.sha) ∧
        (restPathFetch baseSha headHist baseHist).foundBase = true) ∧
      (((scanPage baseSha headHist).1.map Commit.sha).contains c.sha = false →
        (restPathFetch baseSha headHist baseHist).commits = (scanPage baseSha headHist).1 ∧
        (restPathFetch baseSha headHist baseHist).foundBase = false)) := by
  have hvs : visitedShas baseSha headHist = (scanPage baseSha headHist).1.map Commit.sha :=
    visitedShas_not_found baseSha headHist hnf
  have hcol : (scanPage baseSha headHist).1 = headHist.map toCommit :=
    scanPage_not_found baseSha headHist hnf
  have hie : (visitedShas baseSha headHist).isEmpty = false := by
    rw [hvs, hcol]
    cases headHist with
    | nil => exact absurd rfl hne
    | cons a l => rfl
  refine ⟨?_, hcol, ?_, ?_⟩
  · cases baseHist with
    | nil => simp [restPathFetch, hnf, hie]
    | cons c rest =>
      simp only [restPathFetch, hnf, hie]
      simp only [Bool.false_eq_true, if_false]
      split <;> rfl
  · intro hb
    subst hb
    simp [restPathFetch, hnf, hie]
  · intro c rest hb
    subst hb
    constructor
    · intro hc
      have hmem : c.sha ∈ visitedShas baseSha headHist := by
        rw [hvs]
        simpa using hc
      simp [restPathFetch, hnf, hie, hmem]
    · intro hc
      have hmem : c.sha ∉ visitedShas baseSha headHist := by
        rw [hvs]
        simpa using hc
      simp [restPathFetch, hnf, hie, hmem]

/-- C1 (counterexample): with an empty head-side collection the source
skips the intersection search entirely (the `listCommitShas.size > 0` guard
fails), so zero pages are walked from the base identifier even though the
base was not encountered during the head walk — refuting the claimed
"at least one page" as universally stated. -/
theorem claim_C1_counterexample :
    (scanPage "bbbb" ([] : List RawCommit)).2 = false ∧
    (restPathFetch "bbbb" [] [rawC1]).baseRequests = 0 := by
  decide

/-- C1 witness: a two-commit head-side history missing the base; the
intersection search issues its one request, finds the first base-side
commit in the collection, and truncates strictly before it. -/
theorem claim_C1_witness :
    (restPathFetch "bbbb" [rawC1, rawC2] [rawC2]).baseRequests = 1 ∧
    (restPathFetch "bbbb" [rawC1, rawC2] [rawC2]).commits = [toCommit rawC1] ∧
    (restPathFetch "bbbb" [rawC1, rawC2] [rawC2]).foundBase = true := by
  have h := claim_C1_intersection "bbbb" [rawC1, rawC2] [rawC2] (by decide) (by decide)
  refine ⟨h.1, ?_, ((h.2.2.2 rawC2 [] rfl).1 (by decide)).2⟩
  rw [((h.2.2.2 rawC2 [] rfl).1 (by decide)).1]
  decide

/-! ## Claim C6: automatic fallback from the graph strategy -/

/-- C6: when the GraphQL strategy fails (every history query errors) and
the caller did not force a strategy, part_006's fetch falls back to the
linear (REST) strategy and produces exactly the result of a forced linear
run, differing only in the reported strategy field — `rest-fallback`
instead of the forced run's `rest`. -/
theorem claim_C6_graph_fallback (env : Graph.Env6) (opts : Graph.Options6)
    (hfail : ∀ s, ∃ msg, env.graphHistory s = .error msg)
    (hforce : opts.restOnly = false) :
    Graph.getCommitsBetween env opts =
      Graph.withApiUsed
        (Graph.getCommitsBetween env { opts with restOnly := true }) "rest-fallback" ∧
    ∀ r, Graph.getCommitsBetween env { opts with restOnly := true } = .ok r →
      r.apiUsed = "rest" := by
  cases hurl : parseGitHubUrl opts.repoUrl with
  | none =>
    constructor
    · simp [Graph.getCommitsBetween, hurl, Graph.withApiUsed]
    · intro r hr
      simp [Graph.getCommitsBetween, hurl] at hr
  | some ownerRepo =>
    cases hfromSha : Graph.getCommitSha env opts.fromInput with
    | error e =>
      constructor
      · simp [Graph.getCommitsBetween, hurl, hfromSha, Graph.withApiUsed]
      · intro r hr
        simp [Graph.getCommitsBetween, hurl, hfromSha] at hr
    | ok fromSha =>
      cases htoSha : Graph.getCommitSha env opts.toInput with
      | error e =>
        constructor
        · simp [Graph.getCommitsBetween, hurl, hfromSha, htoSha, Graph.withApiUsed]
        · intro r hr
          simp [Graph.getCommitsBetween, hurl, hfromSha, htoSha] at hr
      | ok toSha =>
        obtain ⟨msg, hmsg⟩ := hfail toSha
        have hg : Graph.getCommitsBetweenGraphQL env fromSha toSha =
            .error ("GraphQL query failed: " ++ msg) := by
          simp [Graph.getCommitsBetweenGraphQL, hmsg]
        cases hrest : Graph.getCommitsBetweenREST env fromSha toSha with
        | error e =>
          constructor
          · simp [Graph.getCommitsBetween, hurl, hfromSha, htoSha, hforce, hg, hrest,
                  Graph.withApiUsed]
          · intro r hr
            simp [Graph.getCommitsBetween, hurl, hfromSha, htoSha, hrest] at hr
        | ok commits0 =>
          constructor
          · simp [Graph.getCommitsBetween, hurl, hfromSha, htoSha, hforce, hg, hrest,
                  Graph.withApiUsed]
          · intro r hr
            simp [Graph.getCommitsBetween, hurl, hfromSha, htoSha, hrest] at hr
            rw [← hr]

/-- C6 witness: a concrete environment whose GraphQL queries all fail; the
un-forced run equals the forced linear run relabelled `rest-fallback`. -/
theorem claim_C6_witness :
    Graph.getCommitsBetween envGraphDown optsGraph =
      Graph.withApiUsed
        (Graph.getCommitsBetween envGraphDown { optsGraph with restOnly := true })
        "rest-fallback" :=
  (claim_C6_graph_fallback envGraphDown optsGraph (fun _ => ⟨"network down", rfl⟩) rfl).1

/-! ## Claim C8: partial reference input substitutes a default range -/

/-- C8: a missing reference never fails the pipeline by itself: with no
starting reference the run succeeds or fails exactly as the explicit
`HEAD~1..HEAD` run does, and a success reports that substituted range, an
explanatory warning, and at most one commit (the single most recent); with
only the starting reference supplied, the run matches the explicit
`from..HEAD` run and a success reports the substituted end, with a
warning. -/
theorem claim_C8_partial_input (env : Env) (opts : Options) :
    (truthy opts.fromInput = false →
      (getCommitsBetween env opts).isFailure =
        (getCommitsBetween env
          { opts with fromInput := some "HEAD~1", toInput := some "HEAD" }).isFailure ∧
      ∀ s, getCommitsBetween env opts = .ok s →
        s.fromRef = "HEAD~1" ∧ s.toRef = "HEAD" ∧ s.warning.isSome = true ∧
        s.commits.length ≤ 1) ∧
    (truthy opts.fromInput = true → truthy opts.toInput = false →
      (getCommitsBetween env opts).isFailure =
        (getCommitsBetween env { opts with toInput := some "HEAD" }).isFailure ∧
      ∀ s, getCommitsBetween env opts = .ok s →
        s.fromRef = opts.fromInput.getD "" ∧ s.toRef = "HEAD" ∧ s.warning.isSome = true) := by
  constructor
  · intro hfrom
    have hsub : substituteRefs opts.fromInput opts.toInput =
        ("HEAD~1", "HEAD",
         if truthy opts.toInput then some warnNoStart else some warnNoVersion) := by
      by_cases hto : truthy opts.toInput <;> simp [substituteRefs, hfrom, hto]
    have hsub2 : substituteRefs (some "HEAD~1") (some "HEAD") = ("HEAD~1", "HEAD", none) := by
      decide
    cases hurl : parseGitHubUrl opts.repoUrl with
    | none =>
      constructor
      · simp [getCommitsBetween, hurl, RunResult.isFailure]
      · intro s hs
        simp [getCommitsBetween, hurl] at hs
    | some ownerRepo =>
      cases hfromSha : getCommitSha env "HEAD~1" with
      | error e =>
        constructor
        · simp [getCommitsBetween, hurl, hsub, hsub2, hfromSha, RunResult.isFailure]
        · intro s hs
          simp [getCommitsBetween, hurl, hsub, hfromSha] at hs
      | ok fromSha =>
        cases htoSha : getCommitSha env "HEAD" with
        | error e =>
          constructor
          · simp [getCommitsBetween, hurl, hsub, hsub2, hfromSha, htoSha, RunResult.isFailure]
          · intro s hs
            simp [getCommitsBetween, hurl, hsub, hfromSha, htoSha] at hs
        | ok toSha =>
          by_cases heq : fromSha = toSha
          · constructor
            · simp [getCommitsBetween, hurl, hsub, hsub2, hfromSha, htoSha, heq,
                    RunResult.isFailure]
            · intro s hs
              simp [getCommitsBetween, hurl, hsub, hfromSha, htoSha, heq] at hs
              rw [← hs]
              by_cases hto : truthy opts.toInput <;> simp [hto]
          · cases hfetch : getCommitsBetweenREST env fromSha toSha opts.targetDir with
            | error e =>
              constructor
              · simp [getCommitsBetween, hurl, hsub, hsub2, hfromSha, htoSha, heq, hfetch,
                      RunResult.isFailure]
              · intro s hs
                simp [getCommitsBetween, hurl, hsub, hfromSha, htoSha, heq, hfetch] at hs
            | ok commits0 =>
              constructor
              · simp [getCommitsBetween, hurl, hsub, hsub2, hfromSha, htoSha, heq, hfetch,
                      RunResult.isFailure]
              · intro s hs
                simp [getCommitsBetween, hurl, hsub, hfromSha, htoSha, heq, hfetch, hfrom] at hs
                rw [← hs]
                refine ⟨rfl, rfl, ?_, ?_⟩
                · by_cases hto : truthy opts.toInput <;> simp [hto]
                · simp only [processCommits, List.length_map]
                  have h1 : (commits0.take 1).length ≤ 1 := by simp [List.length_take]
                  split
                  · refine le_trans ?_ h1
                    simp only [filterCommitsByDirectory]
                    split
                    · exact le_refl _
                    · exact List.length_filterMap_le _ _
                  · exact h1
  · intro hfrom hto
    have hsub : substituteRefs opts.fromInput opts.toInput =
        (opts.fromInput.getD "", "HEAD", some warnNoTarget) := by
      simp [substituteRefs, hfrom, hto]
    have hhead : truthy (some "HEAD") = true := by decide
    have hsub2 : substituteRefs opts.fromInput (some "HEAD") =
        (opts.fromInput.getD "", "HEAD", none) := by
      simp [substituteRefs, hfrom, hhead]
    cases hurl : parseGitHubUrl opts.repoUrl with
    | none =>
      constructor
      · simp [getCommitsBetween, hurl, RunResult.isFailure]
      · intro s hs
        simp [getCommitsBetween, hurl] at hs
    | some ownerRepo =>
      cases hfromSha : getCommitSha env (opts.fromInput.getD "") with
      | error e =>
        constructor
        · simp [getCommitsBetween, hurl, hsub, hsub2, hfromSha, RunResult.isFailure]
        · intro s hs
          simp [getCommitsBetween, hurl, hsub, hfromSha] at hs
      | ok fromSha =>
        cases htoSha : getCommitSha env "HEAD" with
        | error e =>
          constructor
          · simp [getCommitsBetween, hurl, hsub, hsub2, hfromSha, htoSha, RunResult.isFailure]
          · intro s hs
            simp [getCommitsBetween, hurl, hsub, hfromSha, htoSha] at hs
        | ok toSha =>
          by_cases heq : fromSha = toSha
          · constructor
            · simp [getCommitsBetween, hurl, hsub, hsub2, hfromSha, htoSha, heq,
                    RunResult.isFailure]
            · intro s hs
              simp [getCommitsBetween, hurl, hsub, hfromSha, htoSha, heq] at hs
              rw [← hs]
              simp
          · cases hfetch : getCommitsBetweenREST env fromSha toSha opts.targetDir with
            | error e =>
              constructor
              · simp [getCommitsBetween, hurl, hsub, hsub2, hfromSha, htoSha, heq, hfetch,
                      RunResult.isFailure]
              · intro s hs
                simp [getCommitsBetween, hurl, hsub, hfromSha, htoSha, heq, hfetch] at hs
            | ok commits0 =>
              constructor
              · simp [getCommitsBetween, hurl, hsub, hsub2, hfromSha, htoSha, heq, hfetch,
                      RunResult.isFailure]
              · intro s hs
                simp [getCommitsBetween, hurl, hsub, hfromSha, htoSha, heq, hfetch, hfrom] at hs
                rw [← hs]
                simp

/-- C8 witness: with no references supplied the run succeeds against a
two-commit environment, reporting the `HEAD~1..HEAD` range, a warning, and
a single commit; with only `v1` supplied the run reports `v1..HEAD` and a
warning. -/
theorem claim_C8_witness :
    (getCommitsBetween envTwo optsNoRefs).isFailure =
      (getCommitsBetween envTwo
        { optsNoRefs with fromInput := some "HEAD~1", toInput := some "HEAD" }).isFailure ∧
    ((getCommitsBetween envTwo optsNoRefs).commitsOrNil).length ≤ 1 ∧
    (getCommitsBetween envTwo optsFromOnly).isFailure =
      (getCommitsBetween envTwo { optsFromOnly with toInput := some "HEAD" }).isFailure := by
  have h1 := (claim_C8_partial_input envTwo optsNoRefs).1 (by decide)
  have h2 := (claim_C8_partial_input envTwo optsFromOnly).2 (by decide) (by decide)
  refine ⟨h1.1, ?_, h2.1⟩
  cases hr : getCommitsBetween envTwo optsNoRefs with
  | err e => simp [RunResult.commitsOrNil]
  | ok s =>
    simp only [RunResult.commitsOrNil]
    exact (h1.2 s hr).2.2.2

/-! ## Claim C2: the directory filter -/

/-- C2: (1) with a truthy target directory, a commit whose files all fall
outside it is rejected; (2) if some file touches the target directory and
every in-scope file (prefix stripped) is matched by at least one exclude
pattern, the commit is rejected; (3) if any in-scope file escapes every
exclude pattern, the commit is retained; (4) a pattern with a leading
separator or a parent-directory segment never matches any path. -/
theorem claim_C2_directory_filter :
    (∀ (files : List String) (td e : Option String),
       truthy td = true →
       (∀ f ∈ files, jsStartsWith f (td.getD "") = false) →
       shouldIncludeCommit files td e = false) ∧
    (∀ (files : List String) (td e : Option String),
       truthy td = true →
       (∃ f ∈ files, jsStartsWith f (td.getD "") = true) →
       (∀ f ∈ files, jsStartsWith f (td.getD "") = true →
          (jsExcludePatterns e).any
            (fun p => patternMatches p (cleanRelative (td.getD "") f)) = true) →
       shouldIncludeCommit files td e = false) ∧
    (∀ (files : List String) (td e : Option String),
       truthy td = true →
       (∃ f ∈ files, jsStartsWith f (td.getD "") = true ∧
          (jsExcludePatterns e).all
            (fun p => !patternMatches p (cleanRelative (td.getD "") f)) = true) →
       shouldIncludeCommit files td e = true) ∧
    (∀ (p rel : String),
       jsStartsWith p "/" = true ∨ jsContains p "../" = true →
       patternMatches p rel = false) := by
  refine ⟨?_, ?_, ?_, ?_⟩
  · intro files td e htd hout
    have hany : files.any (fun f => jsStartsWith f (td.getD "")) = false := by
      rw [List.any_eq_false]
      intro f hf
      simp [hout f hf]
    simp [shouldIncludeCommit, htd, hany]
  · intro files td e htd htouch hall
    obtain ⟨f0, hf0m, hf0⟩ := htouch
    have hany : files.any (fun f => jsStartsWith f (td.getD "")) = true := by
      rw [List.any_eq_true]
      exact ⟨f0, hf0m, hf0⟩
    by_cases he : truthy e
    · by_cases hp : (splitPatterns (e.getD "")).isEmpty
      · exfalso
        have hx := hall f0 hf0m hf0
        rw [jsExcludePatterns, if_pos he, List.isEmpty_iff.mp hp] at hx
        simp at hx
      · have hfc : (files.filter (fun f => jsStartsWith f (td.getD ""))).isEmpty = false := by
          have hf0f : f0 ∈ files.filter (fun f => jsStartsWith f (td.getD "")) :=
            List.mem_filter.mpr ⟨hf0m, hf0⟩
          cases hflt : files.filter (fun f => jsStartsWith f (td.getD "")) with
          | nil => rw [hflt] at hf0f; cases hf0f
          | cons a l => rfl
        have hallx : (files.filter (fun f => jsStartsWith f (td.getD ""))).all
            (fun file => (splitPatterns (e.getD "")).any
              (fun pattern => patternMatches pattern (cleanRelative (td.getD "") file)))
              = true := by
          rw [List.all_eq_true]
          intro f hf
          have hmem := List.mem_filter.mp hf
          have hx := hall f hmem.1 (by simpa using hmem.2)
          rw [jsExcludePatterns, if_pos he] at hx
          exact hx
        simp [shouldIncludeCommit, htd, he, hany, hp, hfc, hallx]
    · exfalso
      have hx := hall f0 hf0m hf0
      rw [jsExcludePatterns, if_neg (by simp [he])] at hx
      simp at hx
  · intro files td e htd hesc
    obtain ⟨f0, hf0m, hf0, hf0esc⟩ := hesc
    have hany : files.any (fun f => jsStartsWith f (td.getD "")) = true := by
      rw [List.any_eq_true]
      exact ⟨f0, hf0m, hf0⟩
    by_cases he : truthy e
    · by_cases hp : (splitPatterns (e.getD "")).isEmpty
      · simp [shouldIncludeCommit, htd, he, hany, hp]
      · have hnone : (splitPatterns (e.getD "")).any
            (fun pattern => patternMatches pattern (cleanRelative (td.getD "") f0)) = false := by
          rw [List.any_eq_false]
          intro p hpm
          rw [jsExcludePatterns, if_pos he] at hf0esc
          have := List.all_eq_true.mp hf0esc p hpm
          simp at this
          simp [this]
        have hnall : (files.filter (fun f => jsStartsWith f (td.getD ""))).all
            (fun file => (splitPatterns (e.getD "")).any
              (fun pattern => patternMatches pattern (cleanRelative (td.getD "") file)))
              = false := by
          rw [List.all_eq_false]
          refine ⟨f0, List.mem_filter.mpr ⟨hf0m, hf0⟩, ?_⟩
          simp [hnone]
        simp [shouldIncludeCommit, htd, he, hany, hp, hnall]
        exact ⟨f0, hf0m, hf0⟩
    · simp [shouldIncludeCommit, htd, he, hany]
  · intro p rel h
    cases h with
    | inl h1 => simp [patternMatches, h1]
    | inr h2 => simp [patternMatches, h2]

/-- C2 witness: concrete instances of the four statements — files outside
`src` are rejected, a fully-excluded commit is rejected, a commit with one
escaping file is retained, and an absolute pattern matches nothing. -/
theorem claim_C2_witness :
    shouldIncludeCommit ["docs/readme.md"] (some "src") none = false ∧
    shouldIncludeCommit ["src/tests/a.txt"] (some "src") (some "tests") = false ∧
    shouldIncludeCommit ["src/tests/a.txt", "src/core/b.txt"] (some "src") (some "tests")
      = true ∧
    patternMatches "/abs" "core/a.txt" = false :=
  ⟨claim_C2_directory_filter.1 ["docs/readme.md"] (some "src") none (by decide) (by decide),
   claim_C2_directory_filter.2.1 ["src/tests/a.txt"] (some "src") (some "tests") (by decide)
     ⟨"src/tests/a.txt", by decide, by decide⟩ (by decide),
   claim_C2_directory_filter.2.2.1 ["src/tests/a.txt", "src/core/b.txt"] (some "src")
     (some "tests") (by decide) ⟨"src/core/b.txt", by decide, by decide, by decide⟩,
   claim_C2_directory_filter.2.2.2 "/abs" "core/a.txt" (Or.inl (by decide))⟩

/-! ## Claim C7: failures cross the boundary as structured results -/

/-- Concatenating onto the core's fixed error prefix never yields an empty
message. -/
theorem refNotFound_msg_ne (x : String) : ("Could not find tag or commit: " ++ x) ≠ "" := by
  intro hx
  have hd : ("Could not find tag or commit: " ++ x).data = [] := by
    rw [hx]
  rw [String.data_append] at hd
  simp at hd

/-- Any error escaping `getCommitsBetweenREST` is a non-empty provider
message, provided the environment's fetch operations fail only with
non-empty messages. -/
theorem getCommitsBetweenREST_err_ne (env : Env) (td : Option String)
    (hcomp : ∀ b h msg, env.compareCommits b h = .error msg → msg ≠ "")
    (hpath : ∀ s p msg, env.pathHistory s p = .error msg → msg ≠ "") :
    ∀ b h msg, getCommitsBetweenREST env b h td = .error msg → msg ≠ "" := by
  intro b h msg hm
  by_cases htd : truthy td
  · simp only [getCommitsBetweenREST, htd, if_true] at hm
    cases hph : env.pathHistory h (td.getD "") with
    | error e2 =>
      rw [hph] at hm
      simp at hm
      exact hm ▸ hpath _ _ _ hph
    | ok headHist =>
      rw [hph] at hm
      simp only at hm
      by_cases hni : needsIntersection b headHist
      · rw [if_pos hni] at hm
        cases hpb : env.pathHistory b (td.getD "") with
        | error e2 =>
          rw [hpb] at hm
          simp at hm
          exact hm ▸ hpath _ _ _ hpb
        | ok baseHist =>
          rw [hpb] at hm
          simp at hm
      · rw [if_neg hni] at hm
        simp at hm
  · simp only [getCommitsBetweenREST, htd, Bool.false_eq_true, if_false] at hm
    cases hcc : env.compareCommits b h with
    | error e2 =>
      rw [hcc] at hm
      simp at hm
      exact hm ▸ hcomp _ _ _ hcc
    | ok cs =>
      rw [hcc] at hm
      simp at hm

/-- An error escaping `getCommitSha` is always the core's own non-empty
message naming the label. -/
theorem getCommitSha_err_ne (env : Env) (label msg : String)
    (h : getCommitSha env label = .error msg) : msg ≠ "" := by
  simp only [getCommitSha] at h
  cases hrc : env.resolveCommit label with
  | ok sha =>
    rw [hrc] at h
    simp at h
  | error e3 =>
    rw [hrc] at h
    cases hrt : env.resolveTag label with
    | ok sha =>
      rw [hrt] at h
      simp at h
    | error e4 =>
      rw [hrt] at h
      cases hrb : env.resolveBranch label with
      | ok sha =>
        rw [hrb] at h
        simp at h
      | error e5 =>
        rw [hrb] at h
        simp at h
        rw [← h]
        exact refNotFound_msg_ne label

/-- The streaming core fails exactly when the non-streaming entry point
does, with the identical failure record. -/
theorem streamCore_err_iff (env : Env) (opts : Options) (e : FailureResult) :
    (streamCore env opts).1 = .err e ↔ getCommitsBetween env opts = .err e := by
  rcases hsub : substituteRefs opts.fromInput opts.toInput with ⟨ff, ft, w⟩
  cases hurl : parseGitHubUrl opts.repoUrl with
  | none => simp [streamCore, getCommitsBetween, hurl]
  | some ownerRepo =>
    cases hfromSha : getCommitSha env ff with
    | error e2 => simp [streamCore, getCommitsBetween, hurl, hsub, hfromSha]
    | ok fromSha =>
      cases htoSha : getCommitSha env ft with
      | error e2 => simp [streamCore, getCommitsBetween, hurl, hsub, hfromSha, htoSha]
      | ok toSha =>
        by_cases heq : fromSha = toSha
        · simp [streamCore, getCommitsBetween, hurl, hsub, hfromSha, htoSha, heq]
        · cases hfetch : getCommitsBetweenREST env fromSha toSha opts.targetDir with
          | error e2 =>
            simp [streamCore, getCommitsBetween, hurl, hsub, hfromSha, htoSha, heq, hfetch]
          | ok commits0 =>
            have hns : ¬getCommitsBetween env opts = .err e := by
              simp [getCommitsBetween, hurl, hsub, hfromSha, htoSha, heq, hfetch]
            have hst : ¬(streamCore env opts).1 = .err e := by
              simp only [streamCore, hurl, hsub, hfromSha, htoSha, hfetch, if_neg heq]
              split <;> split <;> simp
            constructor
            · intro hx
              exact absurd hx hst
            · intro hx
              exact absurd hx hns

/-- C7: failure is always delivered as a structured result: whenever either
entry point fails (for any environment whose provider errors carry
non-empty messages), the failure record holds a non-empty human-readable
error message, the elapsed-time accounting, and the repository coordinate
exactly when the repository URL is parseable. -/
theorem claim_C7_structured_failure (env : Env) (opts : Options)
    (hcomp : ∀ b h msg, env.compareCommits b h = .error msg → msg ≠ "")
    (hpath : ∀ s p msg, env.pathHistory s p = .error msg → msg ≠ "") :
    (∀ e, getCommitsBetween env opts = .err e →
       e.error ≠ "" ∧
       e.elapsedTime = formatElapsedTime env.elapsedMillis ∧
       e.repository = parseGitHubUrl opts.repoUrl) ∧
    (∀ (cb : List StreamCommit → Nat → Nat → Except String Unit)
       (pg : String → Except String Unit) e,
       (streamCommitsBetween env opts cb pg).1 = .err e →
       e.error ≠ "" ∧
       e.elapsedTime = formatElapsedTime env.elapsedMillis ∧
       e.repository = parseGitHubUrl opts.repoUrl) := by
  have hmain : ∀ e, getCommitsBetween env opts = .err e →
      e.error ≠ "" ∧
      e.elapsedTime = formatElapsedTime env.elapsedMillis ∧
      e.repository = parseGitHubUrl opts.repoUrl := by
    intro e he
    rcases hsub : substituteRefs opts.fromInput opts.toInput with ⟨ff, ft, w⟩
    cases hurl : parseGitHubUrl opts.repoUrl with
    | none =>
      simp [getCommitsBetween, hurl] at he
      rw [← he]
      refine ⟨?_, rfl, rfl⟩
      show invalidUrlMessage ≠ ""
      decide
    | some ownerRepo =>
      cases hfromSha : getCommitSha env ff with
      | error e2 =>
        simp [getCommitsBetween, hurl, hsub, hfromSha] at he
        rw [← he]
        exact ⟨getCommitSha_err_ne env ff e2 hfromSha, rfl, rfl⟩
      | ok fromSha =>
        cases htoSha : getCommitSha env ft with
        | error e2 =>
          simp [getCommitsBetween, hurl, hsub, hfromSha, htoSha] at he
          rw [← he]
          exact ⟨getCommitSha_err_ne env ft e2 htoSha, rfl, rfl⟩
        | ok toSha =>
          by_cases heq : fromSha = toSha
          · simp [getCommitsBetween, hurl, hsub, hfromSha, htoSha, heq] at he
          · cases hfetch : getCommitsBetweenREST env fromSha toSha opts.targetDir with
            | error e2 =>
              have hne : e2 ≠ "" :=
                getCommitsBetweenREST_err_ne env opts.targetDir hcomp hpath _ _ _ hfetch
              simp [getCommitsBetween, hurl, hsub, hfromSha, htoSha, heq, hfetch] at he
              rw [← he]
              exact ⟨hne, rfl, rfl⟩
            | ok commits0 =>
              simp [getCommitsBetween, hurl, hsub, hfromSha, htoSha, heq, hfetch] at he
  refine ⟨hmain, ?_⟩
  intro cb pg e he
  exact hmain e ((streamCore_err_iff env opts e).mp he)

/-- C7 witness: against an environment whose range fetch rejects with
`boom`, the run fails with that message, the formatted elapsed time, and
the parsed repository coordinate. -/
theorem claim_C7_witness :
    getCommitsBetween envFetchFail optsTwo =
      .err { error := "boom", elapsedTime := "5ms", repository := some ("octo", "demo") } ∧
    "boom" ≠ "" ∧
    "5ms" = formatElapsedTime envFetchFail.elapsedMillis ∧
    (some (("octo", "demo") : String × String)) = parseGitHubUrl optsTwo.repoUrl := by
  have hcomp : ∀ b h msg, envFetchFail.compareCommits b h = .error msg → msg ≠ "" := by
    intro b h msg hm
    simp [envFetchFail] at hm
    rw [← hm]
    decide
  have hpath : ∀ s p msg, envFetchFail.pathHistory s p = .error msg → msg ≠ "" := by
    intro s p msg hm
    simp [envFetchFail] at hm
    rw [← hm]
    decide
  have hrun : getCommitsBetween envFetchFail optsTwo =
      .err { error := "boom", elapsedTime := "5ms", repository := some ("octo", "demo") } := by
    decide
  have hfields := (claim_C7_structured_failure envFetchFail optsTwo hcomp hpath).1 _ hrun
  exact ⟨hrun, hfields.1, hfields.2.1.symm, hfields.2.2.symm⟩

/-! ## Claim C5: streamed batches vs the non-streaming commit list -/


/-- Concatenating the slicing loop's chunks restores the original list. -/
theorem chunksOfSucc_join {α : Type} (n : Nat) (l : List α) :
    (chunksOfSucc n l).flatten = l := by
  match l with
  | [] => simp [chunksOfSucc]
  | c :: cs =>
    rw [chunksOfSucc]
    simp only [List.flatten_cons]
    rw [chunksOfSucc_join n ((c :: cs).drop (n + 1))]
    exact List.take_append_drop _ _
termination_by l.length
decreasing_by
  simp only [List.length_drop, List.length_cons]
  omega

/-- The concatenated payloads of the emitted batch events are exactly the
stream-processed survivors of the fetched commits, in order (skipping the
empty batches changes nothing). -/
theorem emitBatches_payload (env : Env) (opts : Options) (total : Nat)
    (chunks : List (List Commit)) :
    ∀ count, ((emitBatches env opts total count chunks).1.map BatchEvent.payload).flatten =
      (chunks.flatten).filterMap (processStreamCommit env opts) := by
  induction chunks with
  | nil => intro count; simp [emitBatches]
  | cons b rest ih =>
    intro count
    rw [emitBatches]
    by_cases hr : (b.filterMap (processStreamCommit env opts)).isEmpty
    · simp only [hr, if_true]
      rw [ih]
      simp [List.filterMap_append, List.isEmpty_iff.mp hr]
    · simp only [hr, Bool.false_eq_true, if_false]
      simp only [List.map_cons, List.flatten_cons]
      rw [ih]
      simp [List.filterMap_append]

/-- A message without an opening bracket contains no ticket token. -/
theorem findTicketAnywhere_no_bracket (cs : List Char) (h : Char.ofNat 91 ∉ cs) :
    findTicketAnywhere cs = none := by
  induction cs with
  | nil => rfl
  | cons c rest ih =>
    have hc : c ≠ Char.ofNat 91 := by
      intro hh
      exact h (hh ▸ List.mem_cons_self c rest)
    have hm : matchTicketAt true (c :: rest) = none := by
      simp only [matchTicketAt]
      split
      · rename_i heq
        exfalso
        apply hc
        have : c = (Char.ofNat 91) := by
          injection heq
        exact this
      · rfl
    rw [findTicketAnywhere, hm]
    exact ih (fun hmem => h (List.mem_cons_of_mem c hmem))

/-- A generated `Commit <shortHash>` fallback message never matches the
classifier prefix regex: every vocabulary entry differs from `commit `
within its first two characters. -/
theorem matchSemverPrefix_commit_fallback (s : String) :
    matchSemverPrefix ("Commit " ++ s) = none := by
  have hdata : (jsToLower ("Commit " ++ s)).data =
      'c' :: 'o' :: 'm' :: 'm' :: 'i' :: 't' :: ' ' :: s.data.map Char.toLower := by
    show (("Commit " ++ s).data.map Char.toLower) = _
    have happ : ("Commit " ++ s).data = "Commit ".data ++ s.data := rfl
    rw [happ, List.map_append]
    rfl
  simp [matchSemverPrefix, semverTypes, jsStartsWith, hdata, List.findSome?, List.isPrefixOf]



/-- `processCommits` reads only the sha, message and author metadata, so
the cached file list does not affect it. -/
theorem processCommit_files_irrel (c : Commit) (f : List String) :
    processCommit { c with files := f } = processCommit c := rfl

/-- Parsing a `Commit <shortHash>` fallback message built from a
bracket-free sha yields no classifier and no ticket. -/
theorem parseCommitMessage_commit_fallback (s : String) (hs : bracketFree s = true) :
    (parseCommitMessage ("Commit " ++ jsTake s 7)).semverType = none ∧
    (parseCommitMessage ("Commit " ++ jsTake s 7)).jiraTicketId = none := by
  have hnb : '[' ∉ ("Commit " ++ jsTake s 7).data := by
    intro hmem
    have happ : ("Commit " ++ jsTake s 7).data = "Commit ".data ++ (jsTake s 7).data := rfl
    rw [happ, List.mem_append] at hmem
    rcases hmem with hmem | hmem
    · simp at hmem
    · have hsub : (jsTake s 7).data ⊆ s.data := by
        show s.data.take 7 ⊆ s.data
        exact List.take_subset 7 s.data
      have := List.all_eq_true.mp hs '[' (hsub hmem)
      simp at this
  rw [parseCommitMessage, matchSemverPrefix_commit_fallback]
  exact ⟨rfl, findTicketAnywhere_no_bracket _ (by simpa using hnb)⟩

/-- A commit surviving the streaming per-commit processing carries the same
commit-identity projection as its non-streaming counterpart, for
well-formed provider metadata: the bracket-free sha covers the
empty-message fallback, and the non-empty author name and date keep the
streaming loop's `Unknown` / current-timestamp fallbacks inert. -/
theorem processStream_key (env : Env) (opts : Options) (c : Commit) (s : StreamCommit)
    (hmeta : commitMetaOk c = true)
    (hs : processStreamCommit env opts c = some s) :
    streamKey s = outKey (outOfProcessed (processCommit c)) := by
  have hparts : bracketFree c.sha = true ∧
      c.authorName.isEmpty = false ∧ c.authorDate.isEmpty = false := by
    have h := hmeta
    simp only [commitMetaOk, Bool.and_eq_true, Bool.not_eq_true'] at h
    exact ⟨h.1.1, h.1.2, h.2⟩
  simp only [processStreamCommit] at hs
  by_cases hcond : ((truthy opts.targetDir || truthy opts.excludeSubPaths) &&
      !shouldIncludeCommit
        (if c.files.isEmpty then getFilesChangedInCommit env c.sha else c.files)
        opts.targetDir opts.excludeSubPaths) = true
  · rw [if_pos hcond] at hs
    exact Option.noConfusion hs
  · rw [if_neg hcond] at hs
    injection hs with hs
    subst hs
    by_cases hmsg : c.message.isEmpty
    · have hmm : c.message = "" := (String.isEmpty_iff c.message).mp hmsg
      have hfb := parseCommitMessage_commit_fallback c.sha hparts.1
      have hemp : ("" : String).isEmpty = true := rfl
      have hpe : parseCommitMessage "" =
          { semverType := none, jiraTicketId := none, cleanMessage := "" } := rfl
      simp [streamKey, outKey, outOfProcessed, processCommit, hmm, hemp, hpe, hfb.1, hfb.2,
        hparts.2.1, hparts.2.2]
    · simp [streamKey, outKey, outOfProcessed, processCommit, hmsg,
        hparts.2.1, hparts.2.2]



/-- With active filter criteria, the streaming loop drops a commit exactly
when the directory filter rejects its (lazily fetched) file list. -/
theorem processStream_none_iff (env : Env) (opts : Options) (c : Commit)
    (hcrit : (truthy opts.targetDir || truthy opts.excludeSubPaths) = true) :
    processStreamCommit env opts c = none ↔
      shouldIncludeCommit
        (if c.files.isEmpty then getFilesChangedInCommit env c.sha else c.files)
        opts.targetDir opts.excludeSubPaths = false := by
  simp only [processStreamCommit, hcrit]
  by_cases hinc : shouldIncludeCommit
      (if c.files.isEmpty then getFilesChangedInCommit env c.sha else c.files)
      opts.targetDir opts.excludeSubPaths
  · simp [hinc]
  · simp [hinc]

/-- The streaming per-commit filter and the non-streaming
`filterCommitsByDirectory` retain the same commits in the same order, up to
the commit-identity projection. -/
theorem filterStream_eq_keys (env : Env) (opts : Options) (l : List Commit)
    (hl : ∀ c ∈ l, commitMetaOk c = true) :
    (l.filterMap (processStreamCommit env opts)).map streamKey =
      ((if truthy opts.targetDir || truthy opts.excludeSubPaths then
          filterCommitsByDirectory env l opts.targetDir opts.excludeSubPaths
        else l).map (fun c => outKey (outOfProcessed (processCommit c)))) := by
  by_cases hcrit : (truthy opts.targetDir || truthy opts.excludeSubPaths) = true
  · rw [if_pos hcrit]
    have hnot : (!truthy opts.targetDir && !truthy opts.excludeSubPaths) = false := by
      rw [← Bool.not_or, hcrit]
      rfl
    rw [show filterCommitsByDirectory env l opts.targetDir opts.excludeSubPaths
        = l.filterMap (fun c =>
            let files := if c.files.isEmpty then getFilesChangedInCommit env c.sha else c.files
            if shouldIncludeCommit files opts.targetDir opts.excludeSubPaths then
              some { c with files := files } else none) from by
      simp only [filterCommitsByDirectory, hnot, Bool.false_eq_true, if_false]]
    induction l with
    | nil => simp
    | cons c rest ih =>
      have hc := hl c (List.mem_cons_self c rest)
      have hrest := fun x hx => hl x (List.mem_cons_of_mem c hx)
      rw [List.filterMap_cons, List.filterMap_cons]
      by_cases hinc : shouldIncludeCommit
          (if c.files.isEmpty then getFilesChangedInCommit env c.sha else c.files)
          opts.targetDir opts.excludeSubPaths
      · cases hs : processStreamCommit env opts c with
        | none =>
          exfalso
          have := (processStream_none_iff env opts c hcrit).mp hs
          rw [hinc] at this
          cases this
        | some s =>
          have hkey := processStream_key env opts c s hc hs
          simp only [hinc, if_pos, List.map_cons]
          rw [ih hrest]
          simp [hkey, processCommit_files_irrel]
      · have hs : processStreamCommit env opts c = none := by
          rw [processStream_none_iff env opts c hcrit]
          exact Bool.eq_false_iff.mpr hinc
        simp only [hs, hinc, Bool.false_eq_true, if_false]
        exact ih hrest
  · rw [if_neg hcrit]
    induction l with
    | nil => simp
    | cons c rest ih =>
      have hc := hl c (List.mem_cons_self c rest)
      have hrest := fun x hx => hl x (List.mem_cons_of_mem c hx)
      rw [List.filterMap_cons]
      cases hs : processStreamCommit env opts c with
      | none =>
        exfalso
        simp only [processStreamCommit] at hs
        have hcf : (truthy opts.targetDir || truthy opts.excludeSubPaths) = false :=
          Bool.eq_false_iff.mpr hcrit
        rw [hcf] at hs
        simp at hs
      | some s =>
        have hkey := processStream_key env opts c s hc hs
        simp only [List.map_cons]
        rw [ih hrest]
        simp [hkey]

/-- Every commit collected by the head walk comes from the walked
history. -/
theorem scanPage_mem_toCommit (b : String) (hist : List RawCommit) (c : Commit)
    (hc : c ∈ (scanPage b hist).1) : ∃ rc ∈ hist, c = toCommit rc := by
  induction hist with
  | nil => simp [scanPage] at hc
  | cons r rest ih =>
    by_cases hr : r.sha = b
    · simp [scanPage, hr] at hc
    · simp only [scanPage, hr, if_false] at hc
      rcases List.mem_cons.mp hc with hc0 | hc1
      · exact ⟨r, List.mem_cons_self r rest, hc0⟩
      · obtain ⟨rc, hrc, hrc2⟩ := ih hc1
        exact ⟨rc, List.mem_cons_of_mem r hrc, hrc2⟩

/-- The path fetch returns a subset of the head walk's collection
(truncation only removes a suffix). -/
theorem restPathFetch_commits_subset (b : String) (hh bh : List RawCommit) :
    ∀ c ∈ (restPathFetch b hh bh).commits, c ∈ (scanPage b hh).1 := by
  intro c hc
  simp only [restPathFetch] at hc
  split at hc
  · exact hc
  · split at hc
    · exact hc
    · split at hc
      · exact hc
      · split at hc
        · exact (List.takeWhile_prefix _).subset hc
        · exact hc

/-- Every commit delivered by `getCommitsBetweenREST` carries well-formed
metadata, provided the environment's histories do: each one is built by
`toCommit` from a provider commit of the compared or path-scoped history. -/
theorem restFetch_metaOk (env : Env) (td : Option String)
    (hcomp : ∀ b h l, env.compareCommits b h = .ok l → ∀ c ∈ l, rawMetaOk c = true)
    (hpath : ∀ s p l, env.pathHistory s p = .ok l → ∀ c ∈ l, rawMetaOk c = true) :
    ∀ b h l, getCommitsBetweenREST env b h td = .ok l → ∀ c ∈ l, commitMetaOk c = true := by
  intro b h l hl c hc
  by_cases htd : truthy td
  · simp only [getCommitsBetweenREST, htd, if_true] at hl
    cases hph : env.pathHistory h (td.getD "") with
    | error e2 =>
      rw [hph] at hl
      simp at hl
    | ok headHist =>
      rw [hph] at hl
      simp only at hl
      by_cases hni : needsIntersection b headHist
      · rw [if_pos hni] at hl
        cases hpb : env.pathHistory b (td.getD "") with
        | error e2 =>
          rw [hpb] at hl
          simp at hl
        | ok baseHist =>
          rw [hpb] at hl
          simp at hl
          rw [← hl] at hc
          have hmem := restPathFetch_commits_subset b headHist baseHist c hc
          obtain ⟨rc, hrc, hrc2⟩ := scanPage_mem_toCommit b headHist c hmem
          rw [hrc2]
          exact hpath _ _ _ hph rc hrc
      · rw [if_neg hni] at hl
        simp at hl
        rw [← hl] at hc
        obtain ⟨rc, hrc, hrc2⟩ := scanPage_mem_toCommit b headHist c hc
        rw [hrc2]
        exact hpath _ _ _ hph rc hrc
  · simp only [getCommitsBetweenREST, htd, Bool.false_eq_true, if_false] at hl
    cases hcc : env.compareCommits b h with
    | error e2 =>
      rw [hcc] at hl
      simp at hl
    | ok cs =>
      rw [hcc] at hl
      simp at hl
      rw [← hl] at hc
      obtain ⟨rc, hrc, hrc2⟩ := List.mem_map.mp hc
      rw [← hrc2]
      exact hcomp _ _ _ hcc rc hrc



/-- C5 (amended): for the same environment and inputs, the concatenation,
in order, of the streamed batch payloads corresponds one-to-one to the
non-streaming commit list under the commit-identity projection (full hash,
author, date, classifier, ticket), for every environment that delivers
well-formed commit metadata: bracket-free shas (as real hexadecimal hashes
are) and non-empty author names and dates (as the provider supplies for
real commits).  The record shapes themselves differ: the streamed `hash`
field is the 7-character short hash and its `message` is the raw message,
while the non-streaming list carries the full hash and the cleaned
message; and on an empty author name or date the streamed record holds
`Unknown` / the current timestamp where the non-streaming entry passes the
raw field through. -/
theorem claim_C5_stream_concat (env : Env) (opts : Options)
    (cb : List StreamCommit → Nat → Nat → Except String Unit)
    (pg : String → Except String Unit)
    (hcomp : ∀ b h l, env.compareCommits b h = .ok l → ∀ c ∈ l, rawMetaOk c = true)
    (hpath : ∀ s p l, env.pathHistory s p = .ok l → ∀ c ∈ l, rawMetaOk c = true) :
    (((streamCommitsBetween env opts cb pg).2.1.map BatchEvent.payload).flatten).map streamKey
      = ((getCommitsBetween env opts).commitsOrNil).map outKey := by
  have hev : (streamCommitsBetween env opts cb pg).2.1 = (streamCore env opts).2 := rfl
  rw [hev]
  rcases hsub : substituteRefs opts.fromInput opts.toInput with ⟨ff, ft, w⟩
  cases hurl : parseGitHubUrl opts.repoUrl with
  | none => simp [streamCore, getCommitsBetween, hurl, RunResult.commitsOrNil]
  | some ownerRepo =>
    cases hfromSha : getCommitSha env ff with
    | error e2 =>
      simp [streamCore, getCommitsBetween, hurl, hsub, hfromSha, RunResult.commitsOrNil]
    | ok fromSha =>
      cases htoSha : getCommitSha env ft with
      | error e2 =>
        simp [streamCore, getCommitsBetween, hurl, hsub, hfromSha, htoSha,
          RunResult.commitsOrNil]
      | ok toSha =>
        by_cases heq : fromSha = toSha
        · simp [streamCore, getCommitsBetween, hurl, hsub, hfromSha, htoSha, heq,
            RunResult.commitsOrNil]
        · cases hfetch : getCommitsBetweenREST env fromSha toSha opts.targetDir with
          | error e2 =>
            simp [streamCore, getCommitsBetween, hurl, hsub, hfromSha, htoSha, heq, hfetch,
              RunResult.commitsOrNil]
          | ok commits0 =>
            have hbr0 := restFetch_metaOk env opts.targetDir hcomp hpath _ _ _ hfetch
            have hbr1 : ∀ c ∈ (if !truthy opts.fromInput then commits0.take 1 else commits0),
                commitMetaOk c = true := by
              intro c hcm
              apply hbr0
              by_cases hf : (!truthy opts.fromInput) = true
              · rw [if_pos hf] at hcm
                exact List.take_subset _ _ hcm
              · rw [if_neg hf] at hcm
                exact hcm
            simp only [streamCore, getCommitsBetween, hurl, hsub, hfromSha, htoSha,
              if_neg heq, hfetch]
            by_cases hemp :
                (if !truthy opts.fromInput then commits0.take 1 else commits0).isEmpty
            · have hnil : (if !truthy opts.fromInput then commits0.take 1 else commits0) = [] :=
                List.isEmpty_iff.mp hemp
              rw [if_pos hemp, hnil]
              simp [RunResult.commitsOrNil, processCommits, filterCommitsByDirectory]
            · rw [if_neg hemp]
              rw [show chunksOf10 (if !truthy opts.fromInput then commits0.take 1 else commits0)
                  = chunksOfSucc 9 (if !truthy opts.fromInput then commits0.take 1 else commits0)
                  from rfl]
              rw [emitBatches_payload, chunksOfSucc_join,
                filterStream_eq_keys env opts _ hbr1]
              simp [RunResult.commitsOrNil, processCommits, List.map_map, Function.comp]



/-- C5 (counterexample): the claimed equality fails literally — on a
concrete two-commit range the streamed records' `hash` fields hold the
7-character short hashes while the non-streaming entries hold the full
hashes, so the two lists differ. -/
theorem claim_C5_counterexample :
    (((streamCommitsBetween envTwo optsTwo cbOk pgOk).2.1.map BatchEvent.payload).flatten).map
        StreamCommit.hash ≠
      ((getCommitsBetween envTwo optsTwo).commitsOrNil).map OutCommit.hash := by
  have hev : (streamCommitsBetween envTwo optsTwo cbOk pgOk).2.1
      = (streamCore envTwo optsTwo).2 := rfl
  rw [hev]
  have hsc : (streamCore envTwo optsTwo).2 =
      (emitBatches envTwo optsTwo 2 0 (chunksOf10 [toCommit rawC1, toCommit rawC2])).1 := rfl
  rw [hsc]
  have hch : chunksOf10 [toCommit rawC1, toCommit rawC2]
      = [[toCommit rawC1, toCommit rawC2]] := by
    rw [chunksOf10, chunksOfSucc]
    simp [chunksOfSucc]
  rw [hch]
  decide

/-- C5 witness: on a concrete two-commit environment the streamed
concatenation and the non-streaming list agree under the commit-identity
projection. -/
theorem claim_C5_witness :
    (((streamCommitsBetween envTwo optsTwo cbOk pgOk).2.1.map BatchEvent.payload).flatten).map
        streamKey
      = ((getCommitsBetween envTwo optsTwo).commitsOrNil).map outKey := by
  have hcomp : ∀ b h l, envTwo.compareCommits b h = .ok l →
      ∀ c ∈ l, rawMetaOk c = true := by
    intro b h l hl c hc
    have hl2 : [rawC1, rawC2] = l := by
      simpa [envTwo] using hl
    rw [← hl2] at hc
    simp at hc
    rcases hc with rfl | rfl <;> decide
  have hpath : ∀ s p l, envTwo.pathHistory s p = .ok l →
      ∀ c ∈ l, rawMetaOk c = true := by
    intro s p l hl
    simp [envTwo] at hl
  exact claim_C5_stream_concat envTwo optsTwo cbOk pgOk hcomp hpath


end GVD
